import Mathlib

/-!
Verification of the hf_paper_system document-annotation pipeline.

This file gives a shallow embedding of the Python sources
(`llm_processor.py`, `utils.py`, `scraper_ar5iv.py`, `models.py`,
`config_v1.py`) and proves properties of the embedded definitions.

Conventions of the embedding:
* JSON values (`json.loads` results) are modelled by the inductive `JVal`,
  with numbers as exact decimals (`JNum`).  The non-standard literals
  `NaN`/`Infinity` accepted by Python's `json` module are not modelled (no
  claim touches them), and `\uXXXX` escapes for surrogate code points are
  rejected.
* Python exceptions are modelled by `Except PyErr`; an operation that can
  raise returns `Except PyErr α`.
* File-system state (the per-(paper id, annotation kind) cache files) and
  the generate-call counter are modelled by `SysState`; the round trip
  `json.dumps`/`json.loads` on a cache file is modelled by storing the
  `JVal` directly (`CacheEntry.val`), a file whose content fails
  `json.loads` (including an empty file) by `CacheEntry.corrupt`.
* The Ollama client's answer to each generate call is supplied by an
  oracle `ℕ → Option String` indexed by the running call counter
  (`None` models the client returning `None` on failure).
-/

namespace HFPS

/-- Python exception kinds that the embedded code can raise. -/
inductive PyErr where
  | jsonDecodeError
  | valueError
  | typeError
  | attributeError
  | validationError
  deriving DecidableEq, Repr

/-- Decimal number `m * 10 ^ e10`, the exact value of a JSON number
literal or of a Python `float(...)` conversion of a decimal string.
(The binary rounding of Python floats is not modelled; it is
value-preserving on the exact decimals 0, 0.5 and 1 that the claims
mention, and monotone, so interval claims are unaffected.) -/
structure JNum where
  m : ℤ
  e10 : ℤ
  deriving DecidableEq, Repr

/-- Powers of ten as integers (kernel-computable). -/
def tenPow : ℕ → ℤ
  | 0 => 1
  | n + 1 => 10 * tenPow n

/-- Decidable order on decimal numbers by scaling to a common exponent. -/
def JNum.le (a b : JNum) : Bool :=
  if a.e10 ≤ b.e10 then a.m ≤ b.m * tenPow (b.e10 - a.e10).toNat
  else a.m * tenPow (a.e10 - b.e10).toNat ≤ b.m

/-- The rational value of a decimal number, for specification statements. -/
def JNum.toRat (a : JNum) : ℚ := (a.m : ℚ) * (10 : ℚ) ^ a.e10

/-- JSON values, the results of `json.loads`. -/
inductive JVal where
  | null : JVal
  | bool : Bool → JVal
  | num : JNum → JVal
  | str : String → JVal
  | arr : List JVal → JVal
  | obj : List (String × JVal) → JVal
  deriving Repr

mutual

def JVal.decEq : (a b : JVal) → Decidable (a = b)
  | .null, .null => .isTrue rfl
  | .bool a, .bool b =>
    if h : a = b then .isTrue (by rw [h]) else .isFalse (fun he => h (JVal.bool.inj he))
  | .num a, .num b =>
    if h : a = b then .isTrue (by rw [h]) else .isFalse (fun he => h (JVal.num.inj he))
  | .str a, .str b =>
    if h : a = b then .isTrue (by rw [h]) else .isFalse (fun he => h (JVal.str.inj he))
  | .arr xs, .arr ys =>
    match JVal.decEqList xs ys with
    | .isTrue h => .isTrue (by rw [h])
    | .isFalse h => .isFalse (fun he => h (JVal.arr.inj he))
  | .obj fs, .obj gs =>
    match JVal.decEqFields fs gs with
    | .isTrue h => .isTrue (by rw [h])
    | .isFalse h => .isFalse (fun he => h (JVal.obj.inj he))
  | .null, .bool _ => .isFalse (fun h => JVal.noConfusion h)
  | .null, .num _ => .isFalse (fun h => JVal.noConfusion h)
  | .null, .str _ => .isFalse (fun h => JVal.noConfusion h)
  | .null, .arr _ => .isFalse (fun h => JVal.noConfusion h)
  | .null, .obj _ => .isFalse (fun h => JVal.noConfusion h)
  | .bool _, .null => .isFalse (fun h => JVal.noConfusion h)
  | .bool _, .num _ => .isFalse (fun h => JVal.noConfusion h)
  | .bool _, .str _ => .isFalse (fun h => JVal.noConfusion h)
  | .bool _, .arr _ => .isFalse (fun h => JVal.noConfusion h)
  | .bool _, .obj _ => .isFalse (fun h => JVal.noConfusion h)
  | .num _, .null => .isFalse (fun h => JVal.noConfusion h)
  | .num _, .bool _ => .isFalse (fun h => JVal.noConfusion h)
  | .num _, .str _ => .isFalse (fun h => JVal.noConfusion h)
  | .num _, .arr _ => .isFalse (fun h => JVal.noConfusion h)
  | .num _, .obj _ => .isFalse (fun h => JVal.noConfusion h)
  | .str _, .null => .isFalse (fun h => JVal.noConfusion h)
  | .str _, .bool _ => .isFalse (fun h => JVal.noConfusion h)
  | .str _, .num _ => .isFalse (fun h => JVal.noConfusion h)
  | .str _, .arr _ => .isFalse (fun h => JVal.noConfusion h)
  | .str _, .obj _ => .isFalse (fun h => JVal.noConfusion h)
  | .arr _, .null => .isFalse (fun h => JVal.noConfusion h)
  | .arr _, .bool _ => .isFalse (fun h => JVal.noConfusion h)
  | .arr _, .num _ => .isFalse (fun h => JVal.noConfusion h)
  | .arr _, .str _ => .isFalse (fun h => JVal.noConfusion h)
  | .arr _, .obj _ => .isFalse (fun h => JVal.noConfusion h)
  | .obj _, .null => .isFalse (fun h => JVal.noConfusion h)
  | .obj _, .bool _ => .isFalse (fun h => JVal.noConfusion h)
  | .obj _, .num _ => .isFalse (fun h => JVal.noConfusion h)
  | .obj _, .str _ => .isFalse (fun h => JVal.noConfusion h)
  | .obj _, .arr _ => .isFalse (fun h => JVal.noConfusion h)

def JVal.decEqList : (xs ys : List JVal) → Decidable (xs = ys)
  | [], [] => .isTrue rfl
  | [], _ :: _ => .isFalse (fun h => List.noConfusion h)
  | _ :: _, [] => .isFalse (fun h => List.noConfusion h)
  | x :: xs, y :: ys =>
    match JVal.decEq x y with
    | .isFalse h => .isFalse (fun he => h (List.cons.inj he).1)
    | .isTrue h1 =>
      match JVal.decEqList xs ys with
      | .isTrue h2 => .isTrue (by rw [h1, h2])
      | .isFalse h2 => .isFalse (fun he => h2 (List.cons.inj he).2)

def JVal.decEqFields : (fs gs : List (String × JVal)) → Decidable (fs = gs)
  | [], [] => .isTrue rfl
  | [], _ :: _ => .isFalse (fun h => List.noConfusion h)
  | _ :: _, [] => .isFalse (fun h => List.noConfusion h)
  | (k, v) :: fs, (l, w) :: gs =>
    if hk : k = l then
      match JVal.decEq v w with
      | .isFalse h => .isFalse (fun he => h (congrArg Prod.snd (List.cons.inj he).1))
      | .isTrue h1 =>
        match JVal.decEqFields fs gs with
        | .isTrue h2 => .isTrue (by rw [hk, h1, h2])
        | .isFalse h2 => .isFalse (fun he => h2 (List.cons.inj he).2)
    else .isFalse (fun he => hk (congrArg Prod.fst (List.cons.inj he).1))

end

instance : DecidableEq JVal := JVal.decEq

/-- Decidable equality for `Except` results, used to evaluate the
embedded operations on concrete inputs. -/
def exceptDecEq {ε α : Type} [DecidableEq ε] [DecidableEq α] :
    DecidableEq (Except ε α) := fun a b =>
  match a, b with
  | .ok x, .ok y =>
    if h : x = y then .isTrue (by rw [h]) else .isFalse (fun he => h (Except.ok.inj he))
  | .error x, .error y =>
    if h : x = y then .isTrue (by rw [h]) else .isFalse (fun he => h (Except.error.inj he))
  | .ok _, .error _ => .isFalse (fun h => Except.noConfusion h)
  | .error _, .ok _ => .isFalse (fun h => Except.noConfusion h)

instance {ε α : Type} [DecidableEq ε] [DecidableEq α] : DecidableEq (Except ε α) :=
  exceptDecEq

/-- Python truthiness (`if not parsed: ...`) of a JSON value. -/
def pyTruthy : JVal → Bool
  | .null => false
  | .bool b => b
  | .num q => q.m ≠ 0
  | .str s => s ≠ ""
  | .arr xs => ¬ xs.isEmpty
  | .obj fs => ¬ fs.isEmpty

/-- Dictionary lookup, `d.get(k)`.  `json.loads` keeps the last of
duplicate keys, so the lookup takes the last binding. -/
def objGet (fs : List (String × JVal)) (k : String) : Option JVal :=
  (fs.reverse.find? (fun p => p.1 = k)).map (fun p => p.2)

-- ==================== JSON parsing (json.loads) ====================

/-- JSON whitespace characters. -/
def jsonWs (c : Char) : Bool := c = ' ' || c = '\t' || c = '\n' || c = '\r'

/-- Drop leading JSON whitespace. -/
def skipWs (cs : List Char) : List Char := cs.dropWhile jsonWs

/-- Hexadecimal digit value. -/
def hexVal? (c : Char) : Option ℕ :=
  if '0' ≤ c ∧ c ≤ '9' then some (c.toNat - 48)
  else if 'a' ≤ c ∧ c ≤ 'f' then some (c.toNat - 87)
  else if 'A' ≤ c ∧ c ≤ 'F' then some (c.toNat - 55)
  else none

/-- Parse the body of a JSON string after the opening quote, returning the
decoded characters and the remaining input after the closing quote.
Raw control characters are rejected (`json.loads` is strict). -/
def parseStringBody : List Char → Option (List Char × List Char)
  | [] => none
  | '"' :: rest => some ([], rest)
  | '\\' :: rest =>
    match rest with
    | '"' :: r => (parseStringBody r).map (fun p => ('"' :: p.1, p.2))
    | '\\' :: r => (parseStringBody r).map (fun p => ('\\' :: p.1, p.2))
    | '/' :: r => (parseStringBody r).map (fun p => ('/' :: p.1, p.2))
    | 'b' :: r => (parseStringBody r).map (fun p => ('\x08' :: p.1, p.2))
    | 'f' :: r => (parseStringBody r).map (fun p => ('\x0c' :: p.1, p.2))
    | 'n' :: r => (parseStringBody r).map (fun p => ('\n' :: p.1, p.2))
    | 'r' :: r => (parseStringBody r).map (fun p => ('\r' :: p.1, p.2))
    | 't' :: r => (parseStringBody r).map (fun p => ('\t' :: p.1, p.2))
    | 'u' :: h1 :: h2 :: h3 :: h4 :: r =>
      match hexVal? h1, hexVal? h2, hexVal? h3, hexVal? h4 with
      | some a, some b, some c, some d =>
        let n := ((a * 16 + b) * 16 + c) * 16 + d
        if h : n.isValidChar then
          (parseStringBody r).map (fun p => (Char.ofNatAux n h :: p.1, p.2))
        else none
      | _, _, _, _ => none
    | _ => none
  | c :: rest =>
    if c.toNat < 32 then none
    else (parseStringBody rest).map (fun p => (c :: p.1, p.2))

/-- Value of a list of decimal digit characters. -/
def digitsVal (ds : List Char) : ℕ :=
  ds.foldl (fun acc c => acc * 10 + (c.toNat - 48)) 0

/-- Parse the exponent sign and digits of a JSON number. -/
def parseNumberExpSigned (m e : ℤ) (cs : List Char) : Option (JNum × List Char) :=
  let (esign, cs1) : ℤ × List Char :=
    match cs with
    | '+' :: r => (1, r)
    | '-' :: r => (-1, r)
    | _ => (1, cs)
  let es := cs1.takeWhile Char.isDigit
  if es.isEmpty then none
  else some (⟨m, e + esign * (digitsVal es : ℤ)⟩, cs1.drop es.length)

/-- Parse the optional exponent part of a JSON number and finish. -/
def parseNumberExp (m e : ℤ) (cs : List Char) : Option (JNum × List Char) :=
  match cs with
  | 'e' :: r => parseNumberExpSigned m e r
  | 'E' :: r => parseNumberExpSigned m e r
  | _ => some (⟨m, e⟩, cs)

/-- Parse a JSON number (sign, integer part without leading zeros,
optional fraction, optional exponent) into its exact decimal value. -/
def parseNumber (cs : List Char) : Option (JNum × List Char) :=
  let (sign, cs1) : ℤ × List Char :=
    match cs with
    | '-' :: r => (-1, r)
    | _ => (1, cs)
  let ds := cs1.takeWhile Char.isDigit
  if ds.isEmpty then none
  else if ds.length > 1 ∧ ds.headD '0' = '0' then none
  else
    let cs2 := cs1.drop ds.length
    match cs2 with
    | '.' :: r =>
      let fs := r.takeWhile Char.isDigit
      if fs.isEmpty then none
      else
        parseNumberExp (sign * (digitsVal (ds ++ fs) : ℤ)) (-(fs.length : ℤ))
          (r.drop fs.length)
    | _ => parseNumberExp (sign * (digitsVal ds : ℤ)) 0 cs2

mutual

/-- Fuel-indexed recursive-descent parser for one JSON value. -/
def parseVal (fuel : ℕ) (cs : List Char) : Option (JVal × List Char) :=
  match fuel with
  | 0 => none
  | fuel + 1 =>
    let cs := skipWs cs
    match cs with
    | 'n' :: 'u' :: 'l' :: 'l' :: r => some (.null, r)
    | 't' :: 'r' :: 'u' :: 'e' :: r => some (.bool true, r)
    | 'f' :: 'a' :: 'l' :: 's' :: 'e' :: r => some (.bool false, r)
    | '"' :: r => (parseStringBody r).map (fun p => (.str (String.mk p.1), p.2))
    | '[' :: r =>
      let r1 := skipWs r
      match r1 with
      | ']' :: r2 => some (.arr [], r2)
      | _ =>
        match parseVal fuel r1 with
        | none => none
        | some (v, r2) => parseArrTail fuel [v] r2
    | '\x7b' :: r =>
      let r1 := skipWs r
      match r1 with
      | '\x7d' :: r2 => some (.obj [], r2)
      | _ => parseMember fuel [] r1
    | _ => (parseNumber cs).map (fun p => (.num p.1, p.2))

/-- Parse the rest of a JSON array after the first element. -/
def parseArrTail (fuel : ℕ) (acc : List JVal) (cs : List Char) :
    Option (JVal × List Char) :=
  match fuel with
  | 0 => none
  | fuel + 1 =>
    match skipWs cs with
    | ',' :: r =>
      match parseVal fuel r with
      | none => none
      | some (v, r2) => parseArrTail fuel (acc ++ [v]) r2
    | ']' :: r => some (.arr acc, r)
    | _ => none

/-- Parse one `"key": value` member of a JSON object, then continue. -/
def parseMember (fuel : ℕ) (acc : List (String × JVal)) (cs : List Char) :
    Option (JVal × List Char) :=
  match fuel with
  | 0 => none
  | fuel + 1 =>
    match skipWs cs with
    | '"' :: r =>
      match parseStringBody r with
      | none => none
      | some (k, r2) =>
        match skipWs r2 with
        | ':' :: r3 =>
          match parseVal fuel r3 with
          | none => none
          | some (v, r4) => parseObjTail fuel (acc ++ [(String.mk k, v)]) r4
        | _ => none
    | _ => none

/-- Parse the rest of a JSON object after a member. -/
def parseObjTail (fuel : ℕ) (acc : List (String × JVal)) (cs : List Char) :
    Option (JVal × List Char) :=
  match fuel with
  | 0 => none
  | fuel + 1 =>
    match skipWs cs with
    | ',' :: r => parseMember fuel acc r
    | '\x7d' :: r => some (.obj acc, r)
    | _ => none

end

/-- The embedding of `json.loads`: parse one JSON value and require that
only whitespace remains. -/
def jsonParse (s : String) : Option JVal :=
  match parseVal (2 * s.length + 8) s.data with
  | some (v, rest) => if (skipWs rest).isEmpty then some v else none
  | none => none

-- ==================== utils.py: safe_json_parse ====================

/-- Characters matched by the regex class `\s` (ASCII range). -/
def regexWs (c : Char) : Bool :=
  c = ' ' || c = '\t' || c = '\n' || c = '\r' || c = '\x0b' || c = '\x0c'

/-- Drop trailing `\s` characters. -/
def dropWsTail (cs : List Char) : List Char :=
  (cs.reverse.dropWhile regexWs).reverse

/-- First index at which `needle` occurs as a prefix of a suffix of `hay`. -/
def findSub (needle hay : List Char) : Option ℕ :=
  (List.range (hay.length + 1)).find? (fun i => needle.isPrefixOf (hay.drop i))

/-- The seven characters opening a fenced JSON block. -/
def fenceOpen : List Char := ['`', '`', '`', 'j', 's', 'o', 'n']

/-- The three characters closing a fenced block. -/
def fenceClose : List Char := ['`', '`', '`']

/-- Match of the regex search for a fenced block starting at index `i`:
after the literal opening, greedy `\s*`, then the minimal interior such
that `\s*` followed by the closing fence matches. -/
def fencedAt (cs : List Char) (i : ℕ) : Option (List Char) :=
  if fenceOpen.isPrefixOf (cs.drop i) then
    let rest := (cs.drop (i + 7)).dropWhile regexWs
    (findSub fenceClose rest).map (fun k => dropWsTail (rest.take k))
  else none

/-- The interior of the leftmost complete fenced JSON block,
the group of the regex search for "triple-backtick json ... triple-backtick". -/
def findFenced (s : String) : Option String :=
  ((List.range s.data.length).findSome? (fun i => fencedAt s.data i)).map
    (fun cs => String.mk cs)

/-- The leftmost match of the regex search for an open brace followed by
anything up to a closing brace: greedy, so it spans from the first open
brace to the last closing brace after it. -/
def braceSpan (s : String) : Option String :=
  let cs := s.data
  match cs.findIdx? (fun c => c = '\x7b') with
  | none => none
  | some i =>
    match cs.reverse.findIdx? (fun c => c = '\x7d') with
    | none => none
    | some rj =>
      let j := cs.length - 1 - rj
      if i < j then some (String.mk ((cs.drop i).take (j - i + 1))) else none

/-- The embedding of `utils.safe_json_parse`: empty input yields nothing;
otherwise try the whole string as JSON, then the interior of a fenced
JSON block, then the first-to-last brace span; any failure falls through
to the next strategy and exhausting them yields nothing. -/
def safe_json_parse (text : String) : Option JVal :=
  if text = "" then none
  else
    match jsonParse text with
    | some v => some v
    | none =>
      match (findFenced text).bind jsonParse with
      | some v => some v
      | none => (braceSpan text).bind jsonParse

-- ==================== utils.py: text helpers ====================

/-- Python string-slice prefix `t[:k]` for a possibly negative index. -/
def pySlicePrefix (t : String) (k : ℤ) : String :=
  String.mk (t.data.take (if 0 ≤ k then k.toNat else ((t.length : ℤ) + k).toNat))

/-- The embedding of `utils.truncate_text`; `none` models Python `None`.
An empty or `None` input (falsy) and a short input return `text or ""`;
otherwise the slice `text[:max_length - len(suffix)]` plus the suffix. -/
def truncate_text (text : Option String) (max_length : ℕ) (suffix : String) : String :=
  match text with
  | none => ""
  | some t =>
    if t.length = 0 ∨ t.length ≤ max_length then t
    else pySlicePrefix t ((max_length : ℤ) - (suffix.length : ℤ)) ++ suffix

/-- Characters treated as whitespace by Python `str.split()` and
`str.strip()` (ASCII range). -/
def pyWs (c : Char) : Bool :=
  c = ' ' || c = '\t' || c = '\n' || c = '\r' || c = '\x0b' || c = '\x0c'

/-- Python `str.strip()`. -/
def pyStrip (s : String) : String :=
  String.mk (((s.data.dropWhile pyWs).reverse.dropWhile pyWs).reverse)

/-- Python `str.split()` with no arguments: maximal non-whitespace runs,
empty runs dropped.  The accumulator holds the current run reversed. -/
def pySplitAux : List Char → List Char → List (List Char)
  | [], acc => if acc.isEmpty then [] else [acc.reverse]
  | c :: rest, acc =>
    if pyWs c then
      if acc.isEmpty then pySplitAux rest []
      else acc.reverse :: pySplitAux rest []
    else pySplitAux rest (c :: acc)

/-- The embedding of `utils.clean_text`: collapse whitespace runs with
`" ".join(text.split())`, drop control characters below 32 except
newline and tab, and strip. -/
def clean_text (t : String) : String :=
  if t = "" then ""
  else
    let tokens := pySplitAux t.data []
    let joined := List.intercalate [' '] tokens
    let filtered := joined.filter (fun c => 32 ≤ c.toNat || c = '\n' || c = '\t')
    pyStrip (String.mk filtered)

-- ==================== Python float() conversion ====================

/-- Parse the decimal accepted by Python `float(str)` after stripping
whitespace: optional sign, digits with an optional dot (at least one
digit somewhere), optional exponent, nothing left over.  The special
forms `inf`/`nan` are not modelled (no claim mentions them). -/
def pyParseFloat (s : String) : Option JNum :=
  let cs := (s.data.dropWhile pyWs).reverse.dropWhile pyWs |>.reverse
  let (sign, cs1) : ℤ × List Char :=
    match cs with
    | '-' :: r => (-1, r)
    | '+' :: r => (1, r)
    | _ => (1, cs)
  let ds := cs1.takeWhile Char.isDigit
  let cs2 := cs1.drop ds.length
  match cs2 with
  | '.' :: r =>
    let fs := r.takeWhile Char.isDigit
    if ds.isEmpty ∧ fs.isEmpty then none
    else pyFloatExp (sign * (digitsVal (ds ++ fs) : ℤ)) (-(fs.length : ℤ))
      (r.drop fs.length)
  | _ =>
    if ds.isEmpty then none
    else pyFloatExp (sign * (digitsVal ds : ℤ)) 0 cs2
where
  /-- Optional exponent part; the remainder must be empty. -/
  pyFloatExp (m e : ℤ) (cs : List Char) : Option JNum :=
    match cs with
    | [] => some ⟨m, e⟩
    | 'e' :: r => pyFloatExpSigned m e r
    | 'E' :: r => pyFloatExpSigned m e r
    | _ => none
  /-- Exponent sign and digits; the remainder must be empty. -/
  pyFloatExpSigned (m e : ℤ) (cs : List Char) : Option JNum :=
    let (esign, cs1) : ℤ × List Char :=
      match cs with
      | '+' :: r => (1, r)
      | '-' :: r => (-1, r)
      | _ => (1, cs)
    let es := cs1.takeWhile Char.isDigit
    if es.isEmpty ∨ ¬ (cs1.drop es.length).isEmpty then none
    else some ⟨m, e + esign * (digitsVal es : ℤ)⟩

/-- Python `float(x)` on a JSON value: numbers and booleans convert,
decimal strings parse, everything else raises. -/
def pyFloat : JVal → Except PyErr JNum
  | .num q => .ok q
  | .bool b => .ok (if b then ⟨1, 0⟩ else ⟨0, 0⟩)
  | .str s =>
    match pyParseFloat s with
    | some q => .ok q
    | none => .error .valueError
  | .null => .error .typeError
  | .arr _ => .error .typeError
  | .obj _ => .error .typeError

-- ==================== config_v1.py: PAPER_CATEGORIES ====================

/-- The fixed category taxonomy: identifier, display name, localized
name, and keyword hints, in source order. -/
def PAPER_CATEGORIES : List (String × String × String × List String) :=
  [ ("language_models", "Language Models", "语言模型",
      ["llm", "gpt", "bert", "transformer", "language model", "nlp"]),
    ("computer_vision", "Computer Vision", "计算机视觉",
      ["vision", "image", "video", "cnn", "detection", "segmentation"]),
    ("multimodal", "Multimodal", "多模态",
      ["multimodal", "vision-language", "clip", "dalle", "text-to-image"]),
    ("reinforcement_learning", "Reinforcement Learning", "强化学习",
      ["reinforcement", "rl", "policy", "reward", "agent"]),
    ("generative_models", "Generative Models", "生成模型",
      ["diffusion", "gan", "vae", "generation", "synthesis"]),
    ("alignment", "Alignment & Safety", "对齐与安全",
      ["alignment", "rlhf", "safety", "harmless", "helpful"]),
    ("efficiency", "Efficiency", "效率优化",
      ["quantization", "pruning", "distillation", "efficient", "compression"]),
    ("robotics", "Robotics", "机器人",
      ["robot", "manipulation", "navigation", "embodied"]),
    ("speech_audio", "Speech & Audio", "语音与音频",
      ["speech", "audio", "tts", "asr", "voice"]),
    ("graphs_knowledge", "Graphs & Knowledge", "图与知识",
      ["graph", "knowledge", "reasoning", "retrieval", "rag"]),
    ("other", "Other", "其他", []) ]

/-- The category identifiers (dictionary keys). -/
def categoryKeys : List String := PAPER_CATEGORIES.map (fun e => e.1)

/-- Display and localized name of a category identifier (total; the
default is never reached because lookups only happen on members). -/
def categoryInfo (c : String) : String × String :=
  ((PAPER_CATEGORIES.find? (fun e => e.1 = c)).map
    (fun e => (e.2.1, e.2.2.1))).getD ("", "")

-- ==================== models.py: result records ====================

/-- The embedding of `models.ClassificationResult`; the `generated_at`
timestamp is carried as an opaque string. -/
structure ClassificationResult where
  paper_id : String
  category : String
  category_name : String
  category_name_zh : String
  confidence : JNum
  reasoning : Option String
  raw_response : String
  generated_at : String
  deriving DecidableEq, Repr

/-- The embedding of `models.KeywordsResult`. -/
structure KeywordsResult where
  paper_id : String
  keywords : List String
  keywords_zh : List String
  raw_response : String
  generated_at : String
  deriving DecidableEq, Repr

/-- The embedding of `models.LabelsResult`. -/
structure LabelsResult where
  paper_id : String
  labels : List String
  labels_zh : List String
  raw_response : String
  generated_at : String
  deriving DecidableEq, Repr

/-- The embedding of `models.ParagraphComment`. -/
structure ParagraphComment where
  paragraph_index : ℤ
  paragraph_text : String
  section_title : String
  key_points : List String
  reading_notes : String
  importance : String
  raw_response : String
  deriving DecidableEq, Repr

/-- The embedding of `models.CommentsResult`. -/
structure CommentsResult where
  paper_id : String
  comments : List ParagraphComment
  summary : String
  generated_at : String
  deriving DecidableEq, Repr

-- ==================== pydantic field validation ====================

/-- A required `str` field. -/
def pydanticStr : Option JVal → Except PyErr String
  | some (.str s) => .ok s
  | some _ => .error .validationError
  | none => .error .validationError

/-- A `str` field with a default for an absent value. -/
def pydanticStrD (d : String) : Option JVal → Except PyErr String
  | none => .ok d
  | some (.str s) => .ok s
  | some _ => .error .validationError

/-- A `str` value (already defaulted by `dict.get`). -/
def pydanticStrVal : JVal → Except PyErr String
  | .str s => .ok s
  | _ => .error .validationError

/-- An `Optional[str]` field defaulting to `None`. -/
def pydanticOptStr : Option JVal → Except PyErr (Option String)
  | none => .ok none
  | some .null => .ok none
  | some (.str s) => .ok (some s)
  | some _ => .error .validationError

/-- Effectful map over a list, short-circuiting on the first raised
error (the semantics of `mapM` over `Except`, written as plain
recursion). -/
def exceptMap {α β : Type} (f : α → Except PyErr β) : List α → Except PyErr (List β)
  | [] => .ok []
  | x :: xs => do
    let b ← f x
    let bs ← exceptMap f xs
    .ok (b :: bs)

/-- A `List[str]` value: a list whose members are all strings. -/
def pydanticStrListVal : JVal → Except PyErr (List String)
  | .arr xs => exceptMap (fun x =>
      match x with
      | .str s => Except.ok s
      | _ => Except.error PyErr.validationError) xs
  | _ => .error .validationError

/-- A `List[str]` field with `default_factory=list`. -/
def pydanticStrList : Option JVal → Except PyErr (List String)
  | none => .ok []
  | some j => pydanticStrListVal j

/-- The `confidence` field of `ClassificationResult`: a float
constrained by `ge=0.0, le=1.0` with default `0.0`; numbers and numeric
strings are accepted (lax coercion), anything else rejected. -/
def pydanticConfidence : Option JVal → Except PyErr JNum
  | none => .ok ⟨0, 0⟩
  | some (.num q) =>
    if JNum.le ⟨0, 0⟩ q ∧ JNum.le q ⟨1, 0⟩ then .ok q else .error .validationError
  | some (.str s) =>
    match pyParseFloat s with
    | some q =>
      if JNum.le ⟨0, 0⟩ q ∧ JNum.le q ⟨1, 0⟩ then .ok q else .error .validationError
    | none => .error .validationError
  | some _ => .error .validationError

/-- The integer value of an exact decimal, when it is integral. -/
def JNum.toInt? (a : JNum) : Option ℤ :=
  if 0 ≤ a.e10 then some (a.m * tenPow a.e10.toNat)
  else
    let d := tenPow (-a.e10).toNat
    if a.m % d = 0 then some (a.m / d) else none

/-- A required `int` field: an integral number (lax string coercion is
not modelled; cached files are written by these operations, which store
numbers). -/
def pydanticInt : Option JVal → Except PyErr ℤ
  | some (.num q) =>
    match JNum.toInt? q with
    | some n => .ok n
    | none => .error .validationError
  | some _ => .error .validationError
  | none => .error .validationError

-- ==================== cache files and system state ====================

/-- One cache file slot: missing, present but not parseable as JSON
(including an empty file), or present with parsed content.  Storing the
`JVal` models the `json.dumps`/`json.loads` round trip of `save_json`
and `load_json`. -/
inductive CacheEntry where
  | absent : CacheEntry
  | corrupt : CacheEntry
  | val : JVal → CacheEntry
  deriving DecidableEq, Repr

/-- Whether `cache_file.exists()` is true for a slot. -/
def CacheEntry.existsb : CacheEntry → Bool
  | .absent => false
  | _ => true

/-- The embedding of `utils.load_json`: a missing file yields `None`, an
unparseable file raises `json.JSONDecodeError` (the function has no
handler around `json.loads`), a parseable file yields its content. -/
def load_json : CacheEntry → Except PyErr (Option JVal)
  | .absent => .ok none
  | .corrupt => .error .jsonDecodeError
  | .val j => .ok (some j)

/-- `paper_id.replace(".", "_")`, the file-system-safe id used in cache
file names. -/
def safeId (pid : String) : String :=
  String.mk (pid.data.map (fun c => if c = '.' then '_' else c))

/-- Mutable state of an `LLMProcessor` run: the cache directory keyed by
(annotation kind, safe paper id), the number of generate calls issued so
far, and the per-kind (success, failure) counters. -/
structure SysState where
  cache : String → String → CacheEntry
  genCalls : ℕ
  stats : String → ℕ × ℕ

/-- Write a cache file (`save_json` of a result dump). -/
def cacheSet (st : SysState) (kind pid : String) (j : JVal) : SysState :=
  { st with cache := fun k p =>
      if k = kind ∧ p = safeId pid then .val j else st.cache k p }

/-- Increment the success counter of one annotation kind. -/
def bumpSuccess (st : SysState) (kind : String) : SysState :=
  { st with stats := fun k =>
      if k = kind then ((st.stats k).1 + 1, (st.stats k).2) else st.stats k }

/-- Increment the failure counter of one annotation kind. -/
def bumpFailure (st : SysState) (kind : String) : SysState :=
  { st with stats := fun k =>
      if k = kind then ((st.stats k).1, (st.stats k).2 + 1) else st.stats k }

-- ==================== result (de)serialization ====================

/-- `ClassificationResult.model_dump()` followed by `json.dumps`
(`datetime` rendered by `default=str`). -/
def encodeClassification (r : ClassificationResult) : JVal :=
  .obj [ ("paper_id", .str r.paper_id),
         ("category", .str r.category),
         ("category_name", .str r.category_name),
         ("category_name_zh", .str r.category_name_zh),
         ("confidence", .num r.confidence),
         ("reasoning", match r.reasoning with | none => .null | some s => .str s),
         ("raw_response", .str r.raw_response),
         ("generated_at", .str r.generated_at) ]

/-- `ClassificationResult(**data)`: keyword expansion of the cached JSON
object through the pydantic validators. -/
def decodeClassification : JVal → Except PyErr ClassificationResult
  | .obj fs => do
    let pid ← pydanticStr (objGet fs "paper_id")
    let cat ← pydanticStr (objGet fs "category")
    let catName ← pydanticStr (objGet fs "category_name")
    let catNameZh ← pydanticStr (objGet fs "category_name_zh")
    let conf ← pydanticConfidence (objGet fs "confidence")
    let reasoning ← pydanticOptStr (objGet fs "reasoning")
    let raw ← pydanticStrD "" (objGet fs "raw_response")
    let genAt ← pydanticStrD "" (objGet fs "generated_at")
    .ok ⟨pid, cat, catName, catNameZh, conf, reasoning, raw, genAt⟩
  | _ => .error .typeError

/-- `KeywordsResult.model_dump()` followed by `json.dumps`. -/
def encodeKeywords (r : KeywordsResult) : JVal :=
  .obj [ ("paper_id", .str r.paper_id),
         ("keywords", .arr (r.keywords.map (fun s => .str s))),
         ("keywords_zh", .arr (r.keywords_zh.map (fun s => .str s))),
         ("raw_response", .str r.raw_response),
         ("generated_at", .str r.generated_at) ]

/-- `KeywordsResult(**data)`. -/
def decodeKeywords : JVal → Except PyErr KeywordsResult
  | .obj fs => do
    let pid ← pydanticStr (objGet fs "paper_id")
    let kw ← pydanticStrList (objGet fs "keywords")
    let kwZh ← pydanticStrList (objGet fs "keywords_zh")
    let raw ← pydanticStrD "" (objGet fs "raw_response")
    let genAt ← pydanticStrD "" (objGet fs "generated_at")
    .ok ⟨pid, kw, kwZh, raw, genAt⟩
  | _ => .error .typeError

/-- `LabelsResult.model_dump()` followed by `json.dumps`. -/
def encodeLabels (r : LabelsResult) : JVal :=
  .obj [ ("paper_id", .str r.paper_id),
         ("labels", .arr (r.labels.map (fun s => .str s))),
         ("labels_zh", .arr (r.labels_zh.map (fun s => .str s))),
         ("raw_response", .str r.raw_response),
         ("generated_at", .str r.generated_at) ]

/-- `LabelsResult(**data)`. -/
def decodeLabels : JVal → Except PyErr LabelsResult
  | .obj fs => do
    let pid ← pydanticStr (objGet fs "paper_id")
    let lb ← pydanticStrList (objGet fs "labels")
    let lbZh ← pydanticStrList (objGet fs "labels_zh")
    let raw ← pydanticStrD "" (objGet fs "raw_response")
    let genAt ← pydanticStrD "" (objGet fs "generated_at")
    .ok ⟨pid, lb, lbZh, raw, genAt⟩
  | _ => .error .typeError

/-- `ParagraphComment.model_dump()` as a JSON object. -/
def encodeParagraphComment (c : ParagraphComment) : JVal :=
  .obj [ ("paragraph_index", .num ⟨c.paragraph_index, 0⟩),
         ("paragraph_text", .str c.paragraph_text),
         ("section_title", .str c.section_title),
         ("key_points", .arr (c.key_points.map (fun s => .str s))),
         ("reading_notes", .str c.reading_notes),
         ("importance", .str c.importance),
         ("raw_response", .str c.raw_response) ]

/-- `ParagraphComment(**data)`. -/
def decodeParagraphComment : JVal → Except PyErr ParagraphComment
  | .obj fs => do
    let idx ← pydanticInt (objGet fs "paragraph_index")
    let ptext ← pydanticStr (objGet fs "paragraph_text")
    let stitle ← pydanticStrD "" (objGet fs "section_title")
    let kps ← pydanticStrList (objGet fs "key_points")
    let notes ← pydanticStrD "" (objGet fs "reading_notes")
    let imp ← pydanticStrD "medium" (objGet fs "importance")
    let raw ← pydanticStrD "" (objGet fs "raw_response")
    .ok ⟨idx, ptext, stitle, kps, notes, imp, raw⟩
  | _ => .error .typeError

/-- `CommentsResult.model_dump()` followed by `json.dumps`. -/
def encodeComments (r : CommentsResult) : JVal :=
  .obj [ ("paper_id", .str r.paper_id),
         ("comments", .arr (r.comments.map encodeParagraphComment)),
         ("summary", .str r.summary),
         ("generated_at", .str r.generated_at) ]

/-- `CommentsResult(**data)`. -/
def decodeComments : JVal → Except PyErr CommentsResult
  | .obj fs => do
    let pid ← pydanticStr (objGet fs "paper_id")
    let cs ←
      match objGet fs "comments" with
      | none => Except.ok ([] : List ParagraphComment)
      | some (.arr xs) => exceptMap decodeParagraphComment xs
      | some _ => Except.error PyErr.validationError
    let summary ← pydanticStrD "" (objGet fs "summary")
    let genAt ← pydanticStrD "" (objGet fs "generated_at")
    .ok ⟨pid, cs, summary, genAt⟩
  | _ => .error .typeError

-- ==================== llm_processor.py: cache checks ====================

/-- The common cache prologue of every annotation operation:
`if cache_file.exists() and not force: data = await load_json(...);
if data: return Decoded(**data)`.  Yields `some` on a hit, `none` when
control falls through to generation, and propagates the exceptions of
`load_json` and of the model constructor. -/
def cacheLookup {α : Type} (decode : JVal → Except PyErr α) (st : SysState)
    (kind pid : String) (force : Bool) : Except PyErr (Option α) :=
  let entry := st.cache kind (safeId pid)
  if entry.existsb ∧ ¬ force then
    match load_json entry with
    | .error e => .error e
    | .ok none => .ok none
    | .ok (some data) =>
      if pyTruthy data then (decode data).map some else .ok none
  else .ok none

-- ==================== llm_processor.py: classify_paper ====================

/-- The value bound to `category` after the membership check: the raw
`parsed.get("category", "other")` folded to `"other"` when it is not a
taxonomy key; an unhashable value raises `TypeError` from the `in`
test. -/
def categoryOf (fs : List (String × JVal)) : Except PyErr String :=
  match (objGet fs "category").getD (.str "other") with
  | .arr _ => .error .typeError
  | .obj _ => .error .typeError
  | .str s => .ok (if s ∈ categoryKeys then s else "other")
  | _ => .ok "other"

/-- The response-processing tail of `classify_paper` (from
`safe_json_parse` to the constructed `ClassificationResult`): `none`
models the `return None` taken when parsing fails or the parse is falsy;
exceptions come from the category `in` test, `float(...)`, and the
pydantic validators. -/
def classifyProcessResponse (paper_id resp now : String) :
    Except PyErr (Option ClassificationResult) :=
  match safe_json_parse resp with
  | none => .ok none
  | some parsed =>
    if ¬ pyTruthy parsed then .ok none
    else
      match parsed with
      | .obj fs => do
        let category ← categoryOf fs
        let conf ← pyFloat ((objGet fs "confidence").getD (.num ⟨5, -1⟩))
        let reasoning ← pydanticOptStr (objGet fs "reasoning")
        if JNum.le ⟨0, 0⟩ conf ∧ JNum.le conf ⟨1, 0⟩ then
          .ok (some ⟨paper_id, category, (categoryInfo category).1,
            (categoryInfo category).2, conf, reasoning, resp, now⟩)
        else .error .validationError
      | _ => .error .attributeError

/-- The embedding of `LLMProcessor.classify_paper`.  The `oracle` gives
the client's answer to the `n`-th generate call of the run; `now` is the
`datetime.now()` timestamp of this call. -/
def classify_paper (oracle : ℕ → Option String) (st : SysState)
    (paper_id title abstract : String) (force : Bool) (now : String) :
    Except PyErr (Option ClassificationResult × SysState) :=
  match cacheLookup decodeClassification st "classification" paper_id force with
  | .error e => .error e
  | .ok (some r) => .ok (some r, st)
  | .ok none =>
    let response := oracle st.genCalls
    let st1 := { st with genCalls := st.genCalls + 1 }
    match response with
    | none => .ok (none, bumpFailure st1 "classification")
    | some resp =>
      if resp = "" then .ok (none, bumpFailure st1 "classification")
      else
        match classifyProcessResponse paper_id resp now with
        | .error e => .error e
        | .ok none => .ok (none, bumpFailure st1 "classification")
        | .ok (some r) =>
          .ok (some r, bumpSuccess
            (cacheSet st1 "classification" paper_id (encodeClassification r))
            "classification")

-- ==================== llm_processor.py: extract_keywords ====================

/-- Python slicing `x[:n]` as applied to `parsed.get(...)`: lists and
strings slice, anything else raises `TypeError`. -/
def pySlice (j : JVal) (n : ℕ) : Except PyErr JVal :=
  match j with
  | .arr xs => .ok (.arr (xs.take n))
  | .str s => .ok (.str (String.mk (s.data.take n)))
  | _ => .error .typeError

/-- The response-processing tail of `extract_keywords`: parse, truthy
check, slice both lists to 10 entries, validate as `List[str]`. -/
def keywordsProcessResponse (paper_id resp now : String) :
    Except PyErr (Option KeywordsResult) :=
  match safe_json_parse resp with
  | none => .ok none
  | some parsed =>
    if ¬ pyTruthy parsed then .ok none
    else
      match parsed with
      | .obj fs => do
        let kwJ ← pySlice ((objGet fs "keywords").getD (.arr [])) 10
        let kwzhJ ← pySlice ((objGet fs "keywords_zh").getD (.arr [])) 10
        let kw ← pydanticStrListVal kwJ
        let kwzh ← pydanticStrListVal kwzhJ
        .ok (some ⟨paper_id, kw, kwzh, resp, now⟩)
      | _ => .error .attributeError

/-- The embedding of `LLMProcessor.extract_keywords`. -/
def extract_keywords (oracle : ℕ → Option String) (st : SysState)
    (paper_id title abstract : String) (force : Bool) (now : String) :
    Except PyErr (Option KeywordsResult × SysState) :=
  match cacheLookup decodeKeywords st "keywords" paper_id force with
  | .error e => .error e
  | .ok (some r) => .ok (some r, st)
  | .ok none =>
    let response := oracle st.genCalls
    let st1 := { st with genCalls := st.genCalls + 1 }
    match response with
    | none => .ok (none, bumpFailure st1 "keywords")
    | some resp =>
      if resp = "" then .ok (none, bumpFailure st1 "keywords")
      else
        match keywordsProcessResponse paper_id resp now with
        | .error e => .error e
        | .ok none => .ok (none, bumpFailure st1 "keywords")
        | .ok (some r) =>
          .ok (some r, bumpSuccess
            (cacheSet st1 "keywords" paper_id (encodeKeywords r)) "keywords")

-- ==================== llm_processor.py: extract_labels ====================

/-- The response-processing tail of `extract_labels`: parse, truthy
check, slice both lists to 5 entries, validate as `List[str]`. -/
def labelsProcessResponse (paper_id resp now : String) :
    Except PyErr (Option LabelsResult) :=
  match safe_json_parse resp with
  | none => .ok none
  | some parsed =>
    if ¬ pyTruthy parsed then .ok none
    else
      match parsed with
      | .obj fs => do
        let lbJ ← pySlice ((objGet fs "labels").getD (.arr [])) 5
        let lbzhJ ← pySlice ((objGet fs "labels_zh").getD (.arr [])) 5
        let lb ← pydanticStrListVal lbJ
        let lbzh ← pydanticStrListVal lbzhJ
        .ok (some ⟨paper_id, lb, lbzh, resp, now⟩)
      | _ => .error .attributeError

/-- The embedding of `LLMProcessor.extract_labels`; `keywords` feeds
only the prompt, which the oracle abstracts. -/
def extract_labels (oracle : ℕ → Option String) (st : SysState)
    (paper_id title abstract : String) (keywords : List String)
    (force : Bool) (now : String) :
    Except PyErr (Option LabelsResult × SysState) :=
  match cacheLookup decodeLabels st "labels" paper_id force with
  | .error e => .error e
  | .ok (some r) => .ok (some r, st)
  | .ok none =>
    let response := oracle st.genCalls
    let st1 := { st with genCalls := st.genCalls + 1 }
    match response with
    | none => .ok (none, bumpFailure st1 "labels")
    | some resp =>
      if resp = "" then .ok (none, bumpFailure st1 "labels")
      else
        match labelsProcessResponse paper_id resp now with
        | .error e => .error e
        | .ok none => .ok (none, bumpFailure st1 "labels")
        | .ok (some r) =>
          .ok (some r, bumpSuccess
            (cacheSet st1 "labels" paper_id (encodeLabels r)) "labels")

-- ==================== models.py / scraper_ar5iv.py: sections ====================

/-- The embedding of `models.Section`: title, heading level, paragraph
texts, nested subsections. -/
inductive SectionM : Type where
  | mk : String → ℕ → List String → List SectionM → SectionM

/-- Section title. -/
def SectionM.title : SectionM → String
  | .mk t _ _ _ => t

/-- Section heading level. -/
def SectionM.level : SectionM → ℕ
  | .mk _ l _ _ => l

/-- Section paragraphs. -/
def SectionM.paragraphs : SectionM → List String
  | .mk _ _ ps _ => ps

/-- Section subsections. -/
def SectionM.subsections : SectionM → List SectionM
  | .mk _ _ _ subs => subs

/-- The fields of `models.Ar5ivContent` that the annotation pipeline
reads (`title` for prompts, `sections` for paragraph flattening; the
figure/table/equation/reference payloads are never consulted by the
operations under verification). -/
structure Ar5ivContentM where
  paper_id : String
  title : String
  abstract : Option String
  sections : List SectionM

/-- A section container in the parsed HTML, at the BeautifulSoup
boundary of `_parse_section`: the text of the heading element selected
by `select_one(".ltx_title")` (`none` when the selector finds nothing),
the texts of the direct `p.ltx_p` children, the `p.ltx_p` texts inside
each direct `.ltx_para` container, and the nested `section` containers
returned by `elem.select(...)` for the next level. -/
inductive SElem : Type where
  | mk : Option String → List String → List (List String) → List SElem → SElem

/-- Extracted heading text. -/
def SElem.titleText : SElem → Option String
  | .mk t _ _ _ => t

/-- Direct paragraph texts. -/
def SElem.directPs : SElem → List String
  | .mk _ ps _ _ => ps

/-- Paragraph texts inside `.ltx_para` containers. -/
def SElem.paraContainers : SElem → List (List String)
  | .mk _ _ cs _ => cs

/-- Nested section containers. -/
def SElem.subs : SElem → List SElem
  | .mk _ _ _ s => s

/-- Whether a cleaned title matches the skip pattern
`references|bibliography|appendix` anchored at the start,
case-insensitively. -/
def matchesSkip (t : String) : Bool :=
  let low := t.data.map Char.toLower
  ["references", "bibliography", "appendix"].any
    (fun p => p.data.isPrefixOf low)

/-- Paragraph collection of `_parse_section`: direct `p.ltx_p` children
first; if none passes the cleaning filter, the `.ltx_para` container
fallback. -/
def collectParas (directPs : List String) (containers : List (List String)) :
    List String :=
  let keep := fun (t : String) => t ≠ "" && t.length > 10
  let ps := (directPs.map clean_text).filter keep
  if ps.isEmpty then ((containers.flatten).map clean_text).filter keep
  else ps

mutual

/-- The embedding of `Ar5ivExtractor._parse_section`: no heading means
no section; a heading matching the skip pattern drops the whole
subtree; otherwise paragraphs are collected and subsections parsed
recursively at `level+1`. -/
def parse_section : SElem → ℕ → Option SectionM
  | .mk titleText directPs containers subs, level =>
    match titleText with
    | none => none
    | some raw =>
      let title := clean_text raw
      if matchesSkip title then none
      else some (.mk title level (collectParas directPs containers)
        (parse_subsections subs (level + 1)))

/-- Parse a list of nested section containers, dropping those for which
`_parse_section` returns nothing. -/
def parse_subsections : List SElem → ℕ → List SectionM
  | [], _ => []
  | e :: es, level =>
    match parse_section e level with
    | some s => s :: parse_subsections es level
    | none => parse_subsections es level

end

/-- The embedding of `_extract_sections`: parse every top-level section
container at level 2, keeping the successes. -/
def extract_sections (tops : List SElem) : List SectionM :=
  parse_subsections tops 2

mutual

/-- The lines a section contributes to the full text: the `#`-marked
header, a blank line, each paragraph followed by a blank line, then the
subsections in order. -/
def sectionTexts : SectionM → List String
  | .mk title level ps subs =>
    (String.mk (List.replicate level '#') ++ " " ++ title) :: "" ::
      (ps.flatMap (fun p => [p, ""])) ++ sectionsTexts subs

/-- Lines of a list of sections. -/
def sectionsTexts : List SectionM → List String
  | [] => []
  | s :: ss => sectionTexts s ++ sectionsTexts ss

end

/-- The embedding of `_extract_full_text`: newline-joined in-order
traversal of the section tree. -/
def extract_full_text (sections : List SectionM) : String :=
  String.intercalate "\n" (sectionsTexts sections)

/-- A flattened paragraph with its section title, the dictionary built
by `get_all_paragraphs`. -/
structure ParaRef where
  section_title : String
  text : String
  deriving DecidableEq, Repr

mutual

/-- Paragraphs of one section in pre-order. -/
def sectionParagraphs : SectionM → List ParaRef
  | .mk title _ ps subs =>
    ps.map (fun p => ⟨title, p⟩) ++ sectionsParagraphs subs

/-- Paragraphs of a list of sections. -/
def sectionsParagraphs : List SectionM → List ParaRef
  | [] => []
  | s :: ss => sectionParagraphs s ++ sectionsParagraphs ss

end

/-- The embedding of `scraper_ar5iv.get_all_paragraphs`. -/
def get_all_paragraphs (content : Ar5ivContentM) : List ParaRef :=
  sectionsParagraphs content.sections

mutual

/-- All sections of a parsed tree, the section itself included, for
stating tree-wide invariants. -/
def SectionM.selfAndDesc : SectionM → List SectionM
  | .mk t l ps subs => .mk t l ps subs :: sectionsDesc subs

/-- All sections of a forest. -/
def sectionsDesc : List SectionM → List SectionM
  | [] => []
  | s :: ss => s.selfAndDesc ++ sectionsDesc ss

end

-- ==================== llm_processor.py: paragraph comments ====================

/-- The embedding of `LLMProcessor.generate_paragraph_comment` given the
client's answer `response`; exceptions (from the pydantic validators or
a `.get` on a non-dict parse) are returned as errors, which the
`asyncio.gather(..., return_exceptions=True)` of the caller captures. -/
def generate_paragraph_comment (paper_title section_title paragraph : String)
    (paragraph_index : ℕ) (response : Option String) :
    Except PyErr (Option ParagraphComment) :=
  match response with
  | none => .ok none
  | some resp =>
    if resp = "" then .ok none
    else
      match safe_json_parse resp with
      | none => .ok none
      | some parsed =>
        if ¬ pyTruthy parsed then .ok none
        else
          match parsed with
          | .obj fs => do
            let kps ← pydanticStrListVal ((objGet fs "key_points").getD (.arr []))
            let notes ← pydanticStrVal ((objGet fs "reading_notes").getD (.str ""))
            let imp ← pydanticStrVal ((objGet fs "importance").getD (.str "medium"))
            .ok (some ⟨(paragraph_index : ℤ), truncate_text (some paragraph) 100 "...",
              section_title, kps, notes, imp, resp⟩)
          | _ => .error .attributeError

/-- Stable insertion of a paragraph into a list sorted by descending
text length: the new element goes before the first strictly shorter
one. -/
def insertDesc (x : ParaRef) : List ParaRef → List ParaRef
  | [] => [x]
  | y :: ys =>
    if x.text.length < y.text.length then y :: insertDesc x ys
    else x :: y :: ys

/-- The embedding of
`sorted(paragraphs, key=lambda x: len(x["text"]), reverse=True)`:
Python's sort is stable, and a stable sort by descending length is
unique, so stable insertion sort computes it. -/
def sortByLenDesc : List ParaRef → List ParaRef
  | [] => []
  | x :: xs => insertDesc x (sortByLenDesc xs)

/-- Count of comments whose importance is "high", for the summary. -/
def highCount (cs : List ParagraphComment) : ℕ :=
  (cs.filter (fun c => c.importance = "high")).length

/-- The deterministic summary string of `generate_comments`. -/
def commentsSummary (cs : List ParagraphComment) : String :=
  "共分析 " ++ toString cs.length ++ " 个关键段落，" ++
    "高重要性: " ++ toString (highCount cs) ++ " 个"

/-- The generation path of `generate_comments` (after a cache miss):
flatten all paragraphs, sort by descending text length, truncate to
`max_paragraphs`, run one generate per selected paragraph (the
`taskOracle` gives the client's answer for task `i`), drop failed and
raising tasks, and fail the whole operation only when no comment was
produced. -/
def selectedParagraphs (content : Ar5ivContentM) (max_paragraphs : ℕ) :
    List ParaRef :=
  (sortByLenDesc (get_all_paragraphs content)).take max_paragraphs

/-- The body of the generation path: flatten, sort, truncate, fan out,
drop failures, build the result. -/
def generateCommentsCore (paper_id : String) (content : Ar5ivContentM)
    (max_paragraphs : ℕ) (taskOracle : ℕ → Option String) (now : String) :
    Option CommentsResult :=
  let selected := selectedParagraphs content max_paragraphs
  let results := selected.enum.map (fun ip =>
    generate_paragraph_comment content.title ip.2.section_title ip.2.text ip.1
      (taskOracle ip.1))
  let comments := results.filterMap (fun r =>
    match r with
    | .ok (some c) => some c
    | .ok none => none
    | .error _ => none)
  if comments.isEmpty then none
  else some ⟨paper_id, comments, commentsSummary comments, now⟩

/-- The embedding of `LLMProcessor.generate_comments`: cache check, then
the generation path; the generate-call counter advances by the number of
issued tasks. -/
def generate_comments (taskOracle : ℕ → Option String) (st : SysState)
    (paper_id : String) (content : Ar5ivContentM) (max_paragraphs : ℕ)
    (force : Bool) (now : String) :
    Except PyErr (Option CommentsResult × SysState) :=
  match cacheLookup decodeComments st "comments" paper_id force with
  | .error e => .error e
  | .ok (some r) => .ok (some r, st)
  | .ok none =>
    let selectedCount := (selectedParagraphs content max_paragraphs).length
    let st1 := { st with genCalls := st.genCalls + selectedCount }
    match generateCommentsCore paper_id content max_paragraphs taskOracle now with
    | none => .ok (none, bumpFailure st1 "comments")
    | some r =>
      .ok (some r, bumpSuccess
        (cacheSet st1 "comments" paper_id (encodeComments r)) "comments")

-- ==================== llm_processor.py: OllamaClient ====================

/-- The transport-level outcome of one HTTP request made by the client:
a response with a status and body, the `asyncio.TimeoutError` of an
expired deadline, or a connection-level exception. -/
inductive HttpOutcome where
  | response : ℕ → String → HttpOutcome
  | timeout : HttpOutcome
  | transportError : HttpOutcome
  deriving DecidableEq, Repr

/-- What one call of `OllamaClient.generate` produces: the returned
value (`none` on every failure), the number of HTTP requests it issued,
and the response-body excerpt written to the error log for a non-2xx
status (`text[:200]`). -/
structure GenerateOutcome where
  result : Option JVal
  requestsIssued : ℕ
  loggedBody : Option String
  deriving DecidableEq, Repr

/-- `response.json()` of aiohttp: parse the body, raising on invalid
content; the raised error is caught by the surrounding handler. -/
def aiohttpJson (body : String) : Except PyErr JVal :=
  match jsonParse body with
  | some v => .ok v
  | none => .error .valueError

/-- `data.get("response", "")` on the decoded body; a non-dict decodes
raise `AttributeError`, caught by the surrounding handler. -/
def getResponseField (v : JVal) : Except PyErr JVal :=
  match v with
  | .obj fs => .ok ((objGet fs "response").getD (.str ""))
  | _ => .error .attributeError

/-- The embedding of `OllamaClient.generate`: a 200 response returns its
`response` field (or `None` if the body does not decode), any other
status logs `text[:200]` and returns `None`, and timeout or transport
errors return `None`; exactly one request is issued, with no retry at
this layer. -/
def OllamaClient_generate (outcome : HttpOutcome) : GenerateOutcome :=
  match outcome with
  | .response status body =>
    if status = 200 then
      match (do
        let d ← aiohttpJson body
        getResponseField d : Except PyErr JVal) with
      | .ok v => ⟨some v, 1, none⟩
      | .error _ => ⟨none, 1, none⟩
    else ⟨none, 1, some (String.mk (body.data.take 200))⟩
  | .timeout => ⟨none, 1, none⟩
  | .transportError => ⟨none, 1, none⟩

/-- The embedding of `OllamaClient.check_health`: true exactly for a 200
response to the tags endpoint; every exception is swallowed into
`False`. -/
def check_health (outcome : HttpOutcome) : Bool :=
  match outcome with
  | .response status _ => status = 200
  | .timeout => false
  | .transportError => false

-- ==================== semaphore-bounded fan-out ====================

/-- Progress of one `process_paragraph` task of the comment fan-out:
before `semaphore.acquire()`, holding the semaphore with its generate
call in flight, or finished (semaphore released). -/
inductive TaskPhase where
  | waiting : TaskPhase
  | inflight : TaskPhase
  | done : TaskPhase
  deriving DecidableEq, Repr

/-- A configuration of the fan-out: the current counter of the
`asyncio.Semaphore` and the phase of every task. -/
structure FanoutState where
  counter : ℕ
  tasks : List TaskPhase
  deriving DecidableEq, Repr

/-- The initial configuration: semaphore counter `concurrency`, every
task waiting. -/
def fanoutInit (concurrency n : ℕ) : FanoutState :=
  ⟨concurrency, List.replicate n .waiting⟩

/-- Interleaving semantics of the fan-out under the cooperative
scheduler: a waiting task may enter `async with semaphore` only when the
counter is positive (decrementing it), and an in-flight task finishing
its generate call releases the semaphore (incrementing it). -/
inductive FanoutStep : FanoutState → FanoutState → Prop where
  | acquire (s : FanoutState) (i : ℕ) :
      s.tasks.get? i = some .waiting → 0 < s.counter →
      FanoutStep s ⟨s.counter - 1, s.tasks.set i .inflight⟩
  | finish (s : FanoutState) (i : ℕ) :
      s.tasks.get? i = some .inflight →
      FanoutStep s ⟨s.counter + 1, s.tasks.set i .done⟩

/-- Reachability of fan-out configurations. -/
def FanoutReachable (s t : FanoutState) : Prop :=
  Relation.ReflTransGen FanoutStep s t

/-- Number of generate calls currently in flight. -/
def inflightCount (s : FanoutState) : ℕ :=
  (s.tasks.filter (fun t => t = .inflight)).length

-- ==================== statement-level predicates and fixtures ====================

/-- Whether a value is hashable, so that `value in SOME_DICT` does not
raise `TypeError`. -/
def hashableB : JVal → Bool
  | .arr _ => false
  | .obj _ => false
  | _ => true

/-- A `category` field that the membership test can examine. -/
def categoryFieldOKb : Option JVal → Bool
  | none => true
  | some v => hashableB v

/-- A `confidence` field that `float(...)` converts and that passes the
pydantic `[0,1]` bounds (absent is fine: the 0.5 default applies). -/
def confidenceFieldOKb : Option JVal → Bool
  | none => true
  | some v =>
    match pyFloat v with
    | .ok q => JNum.le ⟨0, 0⟩ q && JNum.le q ⟨1, 0⟩
    | .error _ => false

/-- A `reasoning` field acceptable to the `Optional[str]` validator. -/
def reasoningFieldOKb : Option JVal → Bool
  | none => true
  | some .null => true
  | some (.str _) => true
  | some _ => false

/-- Every keywords cache file that decodes, decodes to capped lists. -/
def keywordsCacheOK (st : SysState) : Prop :=
  ∀ p j r, st.cache "keywords" p = .val j → decodeKeywords j = .ok r →
    r.keywords.length ≤ 10 ∧ r.keywords_zh.length ≤ 10

/-- Every labels cache file that decodes, decodes to capped lists. -/
def labelsCacheOK (st : SysState) : Prop :=
  ∀ p j r, st.cache "labels" p = .val j → decodeLabels j = .ok r →
    r.labels.length ≤ 5 ∧ r.labels_zh.length ≤ 5

/-- The header line a section contributes to the full text. -/
def sectionHeader (s : SectionM) : String :=
  String.mk (List.replicate s.level '#') ++ " " ++ s.title

/-- A fresh run state: empty cache directory, zero calls, zero stats. -/
def initState : SysState := ⟨fun _ _ => .absent, 0, fun _ => (0, 0)⟩

/-- A run state in which every cache file exists but holds text that
`json.loads` rejects. -/
def corruptState : SysState := ⟨fun _ _ => .corrupt, 0, fun _ => (0, 0)⟩

/-- A document with one section of 25 paragraphs of pairwise distinct
lengths 1..25, in ascending document order. -/
def content25 : Ar5ivContentM :=
  ⟨"2410.00001", "T25", none,
    [SectionM.mk "Body" 2
      ((List.range 25).map (fun k => String.mk (List.replicate (k + 1) 'a'))) []]⟩

/-- A client oracle whose every answer is a well-formed comment JSON. -/
def commentOracle : ℕ → Option String := fun _ =>
  some "\x7b\"key_points\": [\"kp\"], \"reading_notes\": \"rn\", \"importance\": \"high\"\x7d"

/-- A client oracle answering every classification request with a valid
member category and confidence 0.9. -/
def c6oracle : ℕ → Option String := fun _ =>
  some "\x7b\"category\": \"multimodal\", \"confidence\": 0.9\x7d"

/-- The classification result produced from `c6oracle`'s answer. -/
def c6result : ClassificationResult :=
  ⟨"2410.00001", "multimodal", "Multimodal", "多模态", ⟨9, -1⟩, none,
    "\x7b\"category\": \"multimodal\", \"confidence\": 0.9\x7d", "ts"⟩

/-- The state after one successful fresh classification from
`initState`. -/
def c6state1 : SysState :=
  bumpSuccess (cacheSet { initState with genCalls := 1 } "classification"
    "2410.00001" (encodeClassification c6result)) "classification"

/-- A client oracle answering every keyword request with twelve English
keywords, and every label request with seven labels. -/
def kwOracle : ℕ → Option String := fun _ =>
  some "\x7b\"keywords\": [\"k01\",\"k02\",\"k03\",\"k04\",\"k05\",\"k06\",\"k07\",\"k08\",\"k09\",\"k10\",\"k11\",\"k12\"], \"keywords_zh\": [\"z1\"], \"labels\": [\"l1\",\"l2\",\"l3\",\"l4\",\"l5\",\"l6\",\"l7\"], \"labels_zh\": []\x7d"

/-- A parsed HTML fragment with a "References" subsection (itself with a
nested child) inside an ordinary section, and a top-level
"Bibliography" section. -/
def docRefs : List SElem :=
  [ .mk (some "1 Introduction") ["This paragraph is long enough."] []
      [ .mk (some "References")
          ["Some reference entry text here."] []
          [ .mk (some "Deep inside references") ["Nested paragraph under references."] [] [] ],
        .mk (some "1.1 Setup") ["Another sufficiently long paragraph."] [] [] ],
    .mk (some "Bibliography") ["Bibliography entries are here."] [] [] ]

-- ==================== supporting lemmas ====================

theorem tenPow_eq (n : ℕ) : tenPow n = 10 ^ n := by
  induction n with
  | zero => rfl
  | succ k ih => rw [tenPow, ih, pow_succ]; ring

theorem tenPow_cast (n : ℕ) : ((tenPow n : ℤ) : ℚ) = (10 : ℚ) ^ n := by
  rw [tenPow_eq]; push_cast; ring

theorem zpow_sub_toNat (a b : ℤ) (h : b ≤ a) :
    (10 : ℚ) ^ a = (10 : ℚ) ^ (a - b).toNat * (10 : ℚ) ^ b := by
  have h1 : ((a - b).toNat : ℤ) = a - b := Int.toNat_of_nonneg (by omega)
  have h2 : (10 : ℚ) ^ ((a - b).toNat : ℤ) = (10 : ℚ) ^ (a - b) := by rw [h1]
  rw [← zpow_natCast (10 : ℚ) (a - b).toNat, h2, ← zpow_add₀ (by norm_num : (10 : ℚ) ≠ 0)]
  norm_num

theorem JNum.le_iff (a b : JNum) : JNum.le a b = true ↔ a.toRat ≤ b.toRat := by
  unfold JNum.le JNum.toRat
  by_cases h : a.e10 ≤ b.e10
  · simp only [h, if_true, decide_eq_true_eq]
    rw [zpow_sub_toNat b.e10 a.e10 h]
    have hpos : (0 : ℚ) < (10 : ℚ) ^ a.e10 := zpow_pos (by norm_num) _
    rw [← mul_assoc, mul_le_mul_right hpos, ← tenPow_cast]
    constructor
    · intro hh; exact_mod_cast hh
    · intro hh; exact_mod_cast hh
  · simp only [h, if_false, decide_eq_true_eq]
    have h2 : b.e10 ≤ a.e10 := by omega
    rw [zpow_sub_toNat a.e10 b.e10 h2]
    have hpos : (0 : ℚ) < (10 : ℚ) ^ b.e10 := zpow_pos (by norm_num) _
    rw [← mul_assoc, mul_le_mul_right hpos, ← tenPow_cast]
    constructor
    · intro hh; exact_mod_cast hh
    · intro hh; exact_mod_cast hh

theorem exceptMap_ok_length {α β : Type} {f : α → Except PyErr β} :
    ∀ {xs : List α} {l : List β}, exceptMap f xs = .ok l → l.length = xs.length := by
  intro xs
  induction xs with
  | nil =>
    intro l h
    simp only [exceptMap] at h
    cases h
    rfl
  | cons x xs ih =>
    intro l h
    simp only [exceptMap] at h
    cases hf : f x with
    | error e => rw [hf] at h; simp [Bind.bind, Except.bind] at h
    | ok b =>
      rw [hf] at h
      cases hm : exceptMap f xs with
      | error e => rw [hm] at h; simp [Bind.bind, Except.bind] at h
      | ok bs =>
        rw [hm] at h
        simp only [Bind.bind, Except.bind] at h
        cases h
        simp [ih hm]

theorem strListVal_map (l : List String) :
    pydanticStrListVal (.arr (l.map (fun s => JVal.str s))) = .ok l := by
  induction l with
  | nil => rfl
  | cons s ss ih =>
    simp only [List.map_cons, pydanticStrListVal, exceptMap] at *
    rw [show (exceptMap (fun x =>
        match x with
        | .str s => Except.ok s
        | _ => Except.error PyErr.validationError) (ss.map (fun s => JVal.str s))) = Except.ok ss from ih]
    rfl

theorem decodeKeywords_encode (r : KeywordsResult) :
    decodeKeywords (encodeKeywords r) = .ok r := by
  show (do
    let kw ← pydanticStrListVal (.arr (r.keywords.map (fun s => JVal.str s)))
    let kwZh ← pydanticStrListVal (.arr (r.keywords_zh.map (fun s => JVal.str s)))
    Except.ok (⟨r.paper_id, kw, kwZh, r.raw_response, r.generated_at⟩ : KeywordsResult))
    = Except.ok r
  rw [strListVal_map r.keywords, strListVal_map r.keywords_zh]
  rfl

theorem decodeLabels_encode (r : LabelsResult) :
    decodeLabels (encodeLabels r) = .ok r := by
  show (do
    let lb ← pydanticStrListVal (.arr (r.labels.map (fun s => JVal.str s)))
    let lbZh ← pydanticStrListVal (.arr (r.labels_zh.map (fun s => JVal.str s)))
    Except.ok (⟨r.paper_id, lb, lbZh, r.raw_response, r.generated_at⟩ : LabelsResult))
    = Except.ok r
  rw [strListVal_map r.labels, strListVal_map r.labels_zh]
  rfl

theorem decodeClassification_encode (r : ClassificationResult)
    (h0 : JNum.le ⟨0, 0⟩ r.confidence = true)
    (h1 : JNum.le r.confidence ⟨1, 0⟩ = true) :
    decodeClassification (encodeClassification r) = .ok r := by
  cases hr : r.reasoning with
  | none =>
    show (do
      let conf ← pydanticConfidence (some (.num r.confidence))
      let reasoning ← pydanticOptStr (some (match r.reasoning with
        | none => JVal.null | some s => JVal.str s))
      Except.ok (⟨r.paper_id, r.category, r.category_name, r.category_name_zh,
        conf, reasoning, r.raw_response, r.generated_at⟩ : ClassificationResult))
      = Except.ok r
    rw [hr]
    show (do
      let conf ← (if JNum.le ⟨0, 0⟩ r.confidence ∧ JNum.le r.confidence ⟨1, 0⟩ then
          Except.ok r.confidence else Except.error PyErr.validationError)
      Except.ok (⟨r.paper_id, r.category, r.category_name, r.category_name_zh,
        conf, none, r.raw_response, r.generated_at⟩ : ClassificationResult))
      = Except.ok r
    rw [if_pos ⟨h0, h1⟩]
    show Except.ok (⟨r.paper_id, r.category, r.category_name, r.category_name_zh,
      r.confidence, none, r.raw_response, r.generated_at⟩ : ClassificationResult)
      = Except.ok r
    rw [← hr]
  | some s =>
    show (do
      let conf ← pydanticConfidence (some (.num r.confidence))
      let reasoning ← pydanticOptStr (some (match r.reasoning with
        | none => JVal.null | some s => JVal.str s))
      Except.ok (⟨r.paper_id, r.category, r.category_name, r.category_name_zh,
        conf, reasoning, r.raw_response, r.generated_at⟩ : ClassificationResult))
      = Except.ok r
    rw [hr]
    show (do
      let conf ← (if JNum.le ⟨0, 0⟩ r.confidence ∧ JNum.le r.confidence ⟨1, 0⟩ then
          Except.ok r.confidence else Except.error PyErr.validationError)
      Except.ok (⟨r.paper_id, r.category, r.category_name, r.category_name_zh,
        conf, some s, r.raw_response, r.generated_at⟩ : ClassificationResult))
      = Except.ok r
    rw [if_pos ⟨h0, h1⟩]
    show Except.ok (⟨r.paper_id, r.category, r.category_name, r.category_name_zh,
      r.confidence, some s, r.raw_response, r.generated_at⟩ : ClassificationResult)
      = Except.ok r
    rw [← hr]

theorem categoryOf_spec (fs : List (String × JVal)) (c : String)
    (h : categoryOf fs = .ok c) :
    c ∈ categoryKeys ∧
      (∀ s, objGet fs "category" = some (.str s) → s ∉ categoryKeys → c = "other") := by
  have hother : "other" ∈ categoryKeys := by decide
  unfold categoryOf at h
  cases ho : objGet fs "category" with
  | none =>
    rw [ho] at h
    simp only [Option.getD] at h
    cases h
    refine ⟨by simp [hother], ?_⟩
    intro s hs
    cases hs
  | some v =>
    rw [ho] at h
    simp only [Option.getD] at h
    cases v with
    | arr xs => cases h
    | obj gs => cases h
    | str s =>
      cases h
      constructor
      · by_cases hm : s ∈ categoryKeys
        · simp [hm]
        · simp [hm, hother]
      · intro s2 hs2 hnot
        have hss : s = s2 := JVal.str.inj (Option.some.inj hs2)
        rw [← hss] at hnot
        simp [hnot]
    | null =>
      cases h
      refine ⟨hother, ?_⟩
      intro s hs
      simp at hs
    | bool b =>
      cases h
      refine ⟨hother, ?_⟩
      intro s hs
      simp at hs
    | num q =>
      cases h
      refine ⟨hother, ?_⟩
      intro s hs
      simp at hs

theorem categoryOf_of_hashable (fs : List (String × JVal))
    (hcat : categoryFieldOKb (objGet fs "category") = true) :
    ∃ c, categoryOf fs = .ok c := by
  unfold categoryOf
  cases ho : objGet fs "category" with
  | none => exact ⟨_, rfl⟩
  | some v =>
    rw [ho] at hcat
    simp only [categoryFieldOKb] at hcat
    cases v with
    | arr xs => simp [hashableB] at hcat
    | obj gs => simp [hashableB] at hcat
    | str s => exact ⟨_, rfl⟩
    | null => exact ⟨_, rfl⟩
    | bool b => exact ⟨_, rfl⟩
    | num q => exact ⟨_, rfl⟩

theorem classifyProcessResponse_ok (pid resp now : String) (r : ClassificationResult)
    (h : classifyProcessResponse pid resp now = .ok (some r)) :
    r.paper_id = pid ∧ r.raw_response = resp ∧ r.generated_at = now ∧
      r.category ∈ categoryKeys ∧
      JNum.le ⟨0, 0⟩ r.confidence = true ∧ JNum.le r.confidence ⟨1, 0⟩ = true ∧
      r.category_name = (categoryInfo r.category).1 ∧
      r.category_name_zh = (categoryInfo r.category).2 := by
  cases hp : safe_json_parse resp with
  | none => simp only [classifyProcessResponse, hp] at h; cases h
  | some parsed =>
    cases parsed with
    | obj fs =>
      simp only [classifyProcessResponse, hp] at h
      by_cases ht : pyTruthy (JVal.obj fs)
      · rw [if_neg (by simp [ht])] at h
        cases hc : categoryOf fs with
        | error e => rw [hc] at h; simp only [Bind.bind, Except.bind] at h; cases h
        | ok c =>
          rw [hc] at h
          simp only [Bind.bind, Except.bind] at h
          cases hf : pyFloat ((objGet fs "confidence").getD (.num ⟨5, -1⟩)) with
          | error e =>
            rw [hf] at h; simp only [Except.bind] at h; cases h
          | ok conf =>
            rw [hf] at h
            simp only [Except.bind] at h
            cases hre : pydanticOptStr (objGet fs "reasoning") with
            | error e =>
              rw [hre] at h; simp only [Except.bind] at h; cases h
            | ok reas =>
              rw [hre] at h
              simp only [Except.bind] at h
              by_cases hb : JNum.le ⟨0, 0⟩ conf = true ∧ JNum.le conf ⟨1, 0⟩ = true
              · rw [if_pos hb] at h
                cases h
                obtain ⟨hmem, _⟩ := categoryOf_spec fs c hc
                exact ⟨rfl, rfl, rfl, hmem, hb.1, hb.2, rfl, rfl⟩
              · rw [if_neg hb] at h
                cases h
      · rw [if_pos (by simp [ht])] at h
        cases h
    | null =>
      simp only [classifyProcessResponse, hp] at h
      rw [if_pos (by simp [pyTruthy])] at h
      cases h
    | bool b =>
      simp only [classifyProcessResponse, hp] at h
      by_cases ht : pyTruthy (JVal.bool b)
      · rw [if_neg (by simp [ht])] at h; cases h
      · rw [if_pos (by simp [ht])] at h; cases h
    | num q =>
      simp only [classifyProcessResponse, hp] at h
      by_cases ht : pyTruthy (JVal.num q)
      · rw [if_neg (by simp [ht])] at h; cases h
      · rw [if_pos (by simp [ht])] at h; cases h
    | str s =>
      simp only [classifyProcessResponse, hp] at h
      by_cases ht : pyTruthy (JVal.str s)
      · rw [if_neg (by simp [ht])] at h; cases h
      · rw [if_pos (by simp [ht])] at h; cases h
    | arr xs =>
      simp only [classifyProcessResponse, hp] at h
      by_cases ht : pyTruthy (JVal.arr xs)
      · rw [if_neg (by simp [ht])] at h; cases h
      · rw [if_pos (by simp [ht])] at h; cases h

theorem classifyProcessResponse_success (pid resp now : String)
    (fs : List (String × JVal))
    (hparse : safe_json_parse resp = some (.obj fs)) (hne : fs ≠ [])
    (hcat : categoryFieldOKb (objGet fs "category") = true)
    (hconf : confidenceFieldOKb (objGet fs "confidence") = true)
    (hreas : reasoningFieldOKb (objGet fs "reasoning") = true) :
    ∃ r, classifyProcessResponse pid resp now = .ok (some r) ∧
      (objGet fs "confidence" = none → r.confidence = ⟨5, -1⟩) ∧
      (∀ s, objGet fs "category" = some (.str s) → s ∉ categoryKeys →
        r.category = "other") := by
  have htr : pyTruthy (.obj fs) = true := by simp [pyTruthy, hne]
  obtain ⟨c, hc⟩ := categoryOf_of_hashable fs hcat
  have hfl : ∃ conf, pyFloat ((objGet fs "confidence").getD (.num ⟨5, -1⟩)) = .ok conf ∧
      (JNum.le ⟨0, 0⟩ conf = true ∧ JNum.le conf ⟨1, 0⟩ = true) ∧
      (objGet fs "confidence" = none → conf = ⟨5, -1⟩) := by
    cases ho : objGet fs "confidence" with
    | none =>
      refine ⟨⟨5, -1⟩, rfl, by constructor <;> decide, fun _ => rfl⟩
    | some v =>
      rw [ho] at hconf
      simp only [confidenceFieldOKb] at hconf
      cases hf : pyFloat v with
      | error e => rw [hf] at hconf; cases hconf
      | ok q =>
        rw [hf] at hconf
        simp only [Bool.and_eq_true] at hconf
        exact ⟨q, hf, hconf, fun hh => by cases hh⟩
  obtain ⟨conf, hf, hbounds, hdef⟩ := hfl
  have hrl : ∃ reas, pydanticOptStr (objGet fs "reasoning") = .ok reas := by
    cases ho : objGet fs "reasoning" with
    | none => exact ⟨none, rfl⟩
    | some v =>
      rw [ho] at hreas
      cases v with
      | null => exact ⟨none, rfl⟩
      | str s => exact ⟨some s, rfl⟩
      | bool b => simp [reasoningFieldOKb] at hreas
      | num q => simp [reasoningFieldOKb] at hreas
      | arr xs => simp [reasoningFieldOKb] at hreas
      | obj gs => simp [reasoningFieldOKb] at hreas
  obtain ⟨reas, hre⟩ := hrl
  refine ⟨⟨pid, c, (categoryInfo c).1, (categoryInfo c).2, conf, reas, resp, now⟩,
    ?_, fun hn => hdef hn, ?_⟩
  · simp only [classifyProcessResponse, hparse]
    rw [if_neg (by simp [htr])]
    rw [hc]
    simp only [Bind.bind, Except.bind]
    rw [hf]
    simp only [Except.bind]
    rw [hre]
    simp only [Except.bind]
    rw [if_pos hbounds]
  · intro s hs hnot
    exact (categoryOf_spec fs c hc).2 s hs hnot

theorem classify_paper_fresh (oracle : ℕ → Option String) (st : SysState)
    (pid title abstract now resp : String) (force : Bool) (r : ClassificationResult)
    (hmiss : cacheLookup decodeClassification st "classification" pid force = .ok none)
    (hresp : oracle st.genCalls = some resp)
    (hproc : classifyProcessResponse pid resp now = .ok (some r)) :
    classify_paper oracle st pid title abstract force now =
      .ok (some r, bumpSuccess (cacheSet { st with genCalls := st.genCalls + 1 }
        "classification" pid (encodeClassification r)) "classification") := by
  have hne : resp ≠ "" := by
    intro he
    rw [he] at hproc
    have hz : classifyProcessResponse pid "" now = .ok none := rfl
    rw [hz] at hproc
    cases hproc
  simp only [classify_paper, hmiss, hresp]
  rw [if_neg hne, hproc]

/-- C1 (amended): for every model response that parses to a non-empty
JSON object whose category field (if present) is hashable, whose
confidence field is absent or converts through `float(...)` to a value
in [0,1], and whose reasoning field is absent, null or a string,
`classify_paper` (on a cache miss) returns a `ClassificationResult`
whose category is a member of the fixed taxonomy (any unrecognized
string is coerced to "other") and whose confidence lies in [0,1],
defaulting to 0.5 when the field is absent.  (A non-numeric confidence
raises `ValueError` instead of defaulting — see the counterexample —
and an out-of-range one raises a validation error.) -/
theorem classify_paper_parsed_object_spec
    (oracle : ℕ → Option String) (st : SysState)
    (pid title abstract now resp : String) (force : Bool)
    (fs : List (String × JVal))
    (hmiss : cacheLookup decodeClassification st "classification" pid force = .ok none)
    (hresp : oracle st.genCalls = some resp)
    (hparse : safe_json_parse resp = some (.obj fs)) (hne : fs ≠ [])
    (hcat : categoryFieldOKb (objGet fs "category") = true)
    (hconf : confidenceFieldOKb (objGet fs "confidence") = true)
    (hreas : reasoningFieldOKb (objGet fs "reasoning") = true) :
    ∃ r st2, classify_paper oracle st pid title abstract force now =
        .ok (some r, st2) ∧
      r.category ∈ categoryKeys ∧
      0 ≤ r.confidence.toRat ∧ r.confidence.toRat ≤ 1 ∧
      (objGet fs "confidence" = none → r.confidence = ⟨5, -1⟩) ∧
      (∀ s, objGet fs "category" = some (.str s) → s ∉ categoryKeys →
        r.category = "other") := by
  obtain ⟨r, hproc, hdef, hcoerce⟩ :=
    classifyProcessResponse_success pid resp now fs hparse hne hcat hconf hreas
  obtain ⟨_, _, _, hmem, hb0, hb1, _, _⟩ := classifyProcessResponse_ok pid resp now r hproc
  refine ⟨r, _, classify_paper_fresh oracle st pid title abstract now resp force r
    hmiss hresp hproc, hmem, ?_, ?_, hdef, hcoerce⟩
  · have h0 : (⟨0, 0⟩ : JNum).toRat = 0 := by simp [JNum.toRat]
    have := (JNum.le_iff ⟨0, 0⟩ r.confidence).mp hb0
    rwa [h0] at this
  · have h1 : (⟨1, 0⟩ : JNum).toRat = 1 := by simp [JNum.toRat]
    have := (JNum.le_iff r.confidence ⟨1, 0⟩).mp hb1
    rwa [h1] at this

/-- C1 counterexample: the model response
`{"category": "banana", "confidence": "high"}` parses to a JSON object,
but `classify_paper` raises `ValueError` from `float("high")` instead of
returning a result with confidence 0.5: the claimed defaulting on a
non-numeric confidence does not happen. -/
theorem classify_paper_nonnumeric_confidence_raises :
    classify_paper
      (fun _ => some "\x7b\"category\": \"banana\", \"confidence\": \"high\"\x7d")
      initState "2410.00001" "T" "A" false "ts" = .error .valueError := by rfl

/-- C1 witness: the response `{"category": "banana"}` (confidence
absent) yields a result with category "other" and confidence 0.5. -/
theorem classify_paper_parsed_object_spec_witness :
    ∃ r st2, classify_paper (fun _ => some "\x7b\"category\": \"banana\"\x7d")
        initState "2410.00001" "T" "A" false "ts" = .ok (some r, st2) ∧
      r.category ∈ categoryKeys ∧
      0 ≤ r.confidence.toRat ∧ r.confidence.toRat ≤ 1 ∧
      (objGet [("category", .str "banana")] "confidence" = none →
        r.confidence = ⟨5, -1⟩) ∧
      (∀ s, objGet [("category", .str "banana")] "category" = some (.str s) →
        s ∉ categoryKeys → r.category = "other") :=
  classify_paper_parsed_object_spec
    (fun _ => some "\x7b\"category\": \"banana\"\x7d") initState
    "2410.00001" "T" "A" "ts" "\x7b\"category\": \"banana\"\x7d" false
    [("category", .str "banana")] (by rfl) (by rfl) (by rfl)
    (by decide) (by decide) (by decide) (by decide)

/-- C6: from a state whose classification cache file for the paper is
missing, a successful `classify_paper` call advances the generate-call
counter by exactly one and writes the cache file; the second call with
`force = false` hits the cache, returns the same result, and leaves the
state (the counter included) unchanged — so exactly one generate call
is made across the two calls. -/
theorem classify_paper_twice_one_generate (oracle : ℕ → Option String)
    (st : SysState) (pid title abstract now now2 : String)
    (r : ClassificationResult) (st1 : SysState)
    (habsent : st.cache "classification" (safeId pid) = .absent)
    (hfirst : classify_paper oracle st pid title abstract false now =
      .ok (some r, st1)) :
    st1.genCalls = st.genCalls + 1 ∧
    st1.cache "classification" (safeId pid) = .val (encodeClassification r) ∧
    classify_paper oracle st1 pid title abstract false now2 =
      .ok (some r, st1) := by
  have hmiss : cacheLookup decodeClassification st "classification" pid false =
      .ok none := by
    simp [cacheLookup, habsent, CacheEntry.existsb]
  simp only [classify_paper, hmiss] at hfirst
  cases ho : oracle st.genCalls with
  | none => simp only [ho] at hfirst; simp at hfirst
  | some resp =>
    simp only [ho] at hfirst
    by_cases hemp : resp = ""
    · rw [if_pos hemp] at hfirst
      simp at hfirst
    · rw [if_neg hemp] at hfirst
      cases hpr : classifyProcessResponse pid resp now with
      | error e => simp only [hpr] at hfirst; cases hfirst
      | ok o =>
        cases o with
        | none => simp only [hpr] at hfirst; simp at hfirst
        | some r2 =>
          simp only [hpr, Except.ok.injEq, Prod.mk.injEq, Option.some.injEq]
            at hfirst
          obtain ⟨hr, hst⟩ := hfirst
          subst hr
          subst hst
          obtain ⟨_, _, _, _, hb0, hb1, _, _⟩ :=
            classifyProcessResponse_ok pid resp now r2 hpr
          refine ⟨rfl, ?_, ?_⟩
          · simp [bumpSuccess, cacheSet]
          · have hslot : (bumpSuccess (cacheSet { st with genCalls := st.genCalls + 1 }
                "classification" pid (encodeClassification r2))
                "classification").cache "classification" (safeId pid) =
                .val (encodeClassification r2) := by
              simp [bumpSuccess, cacheSet]
            have hlookup : cacheLookup decodeClassification
                (bumpSuccess (cacheSet { st with genCalls := st.genCalls + 1 }
                  "classification" pid (encodeClassification r2)) "classification")
                "classification" pid false = .ok (some r2) := by
              simp only [cacheLookup, hslot]
              have htr : pyTruthy (encodeClassification r2) = true := rfl
              simp [CacheEntry.existsb, load_json, htr, Except.map,
                decodeClassification_encode r2 hb0 hb1]
            simp only [classify_paper, hlookup]

/-- C6 witness: the concrete two-call run from an empty cache with a
fixed oracle makes one generate call and then hits the cache. -/
theorem classify_paper_twice_one_generate_witness :
    c6state1.genCalls = 1 ∧
    c6state1.cache "classification" (safeId "2410.00001") =
      .val (encodeClassification c6result) ∧
    classify_paper c6oracle c6state1 "2410.00001" "T" "A" false "ts2" =
      .ok (some c6result, c6state1) :=
  classify_paper_twice_one_generate c6oracle initState "2410.00001" "T" "A"
    "ts" "ts2" c6result c6state1 (by rfl) (by rfl)

/-- C2 (evidence for the code bug): with a cache file present whose
content `json.loads` rejects, each of the four annotation operations
raises `json.JSONDecodeError` out of the operation (from `load_json`,
which has no handler) instead of treating the file as a cache miss and
regenerating. -/
theorem corrupt_cache_file_raises :
    classify_paper (fun _ => none) corruptState "2410.00001" "T" "A" false "ts" =
      .error .jsonDecodeError ∧
    extract_keywords (fun _ => none) corruptState "2410.00001" "T" "A" false "ts" =
      .error .jsonDecodeError ∧
    extract_labels (fun _ => none) corruptState "2410.00001" "T" "A" [] false "ts" =
      .error .jsonDecodeError ∧
    generate_comments (fun _ => none) corruptState "2410.00001"
      ⟨"2410.00001", "T", none, []⟩ 20 false "ts" = .error .jsonDecodeError :=
  ⟨rfl, rfl, rfl, rfl⟩

/-- C7: `safe_json_parse` tries the whole string, then the interior of a
fenced json block, then the first-to-last brace span, in this order,
taking the first success and yielding nothing when all fail; on the
concrete inputs of the claim it returns the stated values, and a fenced
block wins over a later brace span. -/
theorem safe_json_parse_spec :
    safe_json_parse "```json\n\x7b\"a\":1\x7d\n```" =
      some (.obj [("a", .num ⟨1, 0⟩)]) ∧
    safe_json_parse "garbage text" = none ∧
    safe_json_parse "\x7b\"a\":1\x7d" = some (.obj [("a", .num ⟨1, 0⟩)]) ∧
    safe_json_parse "```json\n1\n``` \x7b\"b\":2\x7d" = some (.num ⟨1, 0⟩) ∧
    (∀ t v, jsonParse t = some v → safe_json_parse t = some v) ∧
    (∀ t v, jsonParse t = none → (findFenced t).bind jsonParse = some v →
      safe_json_parse t = some v) ∧
    (∀ t, jsonParse t = none → (findFenced t).bind jsonParse = none →
      safe_json_parse t = (braceSpan t).bind jsonParse) := by
  refine ⟨by decide, by decide, by decide, by decide, ?_, ?_, ?_⟩
  · intro t v h
    by_cases ht : t = ""
    · rw [ht] at h
      have hz : jsonParse "" = none := rfl
      rw [hz] at h
      cases h
    · simp only [safe_json_parse, if_neg ht, h]
  · intro t v hdirect hfenced
    by_cases ht : t = ""
    · rw [ht] at hfenced
      have hz : (findFenced "").bind jsonParse = none := rfl
      rw [hz] at hfenced
      cases hfenced
    · simp only [safe_json_parse, if_neg ht, hdirect, hfenced]
  · intro t hdirect hfenced
    by_cases ht : t = ""
    · rw [ht]
      rfl
    · simp only [safe_json_parse, if_neg ht, hdirect, hfenced]

/-- C7 witness: a string that is valid JSON as a whole is returned by
the first strategy. -/
theorem safe_json_parse_spec_witness :
    jsonParse "[1, 2]" = some (.arr [.num ⟨1, 0⟩, .num ⟨2, 0⟩]) ∧
    safe_json_parse "[1, 2]" = some (.arr [.num ⟨1, 0⟩, .num ⟨2, 0⟩]) :=
  ⟨by decide, safe_json_parse_spec.2.2.2.2.1 "[1, 2]" _ (by decide)⟩

/-- C8: `OllamaClient.generate` returns no text and issues exactly one
request for each failure kind — non-2xx status (logging the body
truncated to 200 characters), timeout, transport error — and
`check_health` swallows every error and returns false (true is possible
only for a 200 response). -/
theorem ollama_generate_failures_spec :
    (∀ s body, s ≠ 200 →
      OllamaClient_generate (.response s body) =
        ⟨none, 1, some (String.mk (body.data.take 200))⟩) ∧
    OllamaClient_generate .timeout = ⟨none, 1, none⟩ ∧
    OllamaClient_generate .transportError = ⟨none, 1, none⟩ ∧
    (∀ outcome, (OllamaClient_generate outcome).requestsIssued = 1) ∧
    (∀ s body, s ≠ 200 → check_health (.response s body) = false) ∧
    check_health .timeout = false ∧
    check_health .transportError = false := by
  refine ⟨?_, rfl, rfl, ?_, ?_, rfl, rfl⟩
  · intro s body hs
    simp only [OllamaClient_generate, if_neg hs]
  · intro outcome
    cases outcome with
    | response s body =>
      simp only [OllamaClient_generate]
      by_cases hs : s = 200
      · rw [if_pos hs]
        cases hdo : (do
            let d ← aiohttpJson body
            getResponseField d : Except PyErr JVal) with
        | ok v => simp only [hdo]
        | error e => simp only [hdo]
      · rw [if_neg hs]
    | timeout => rfl
    | transportError => rfl
  · intro s body hs
    simp [check_health, hs]

/-- C8 witness: a 500 response yields no text, one request, and the
logged body excerpt; health is false. -/
theorem ollama_generate_failures_spec_witness :
    OllamaClient_generate (.response 500 "server err") =
      ⟨none, 1, some (String.mk ("server err".data.take 200))⟩ ∧
    check_health (.response 500 "server err") = false :=
  ⟨ollama_generate_failures_spec.1 500 "server err" (by decide),
    ollama_generate_failures_spec.2.2.2.2.1 500 "server err" (by decide)⟩

theorem truncate_text_short (t : String) (maxL : ℕ) (suffix : String)
    (h : t.length ≤ maxL) : truncate_text (some t) maxL suffix = t := by
  simp [truncate_text, h]

theorem truncate_text_long (t : String) (maxL : ℕ) (suffix : String)
    (hs : suffix.length ≤ maxL) (hl : maxL < t.length) :
    (truncate_text (some t) maxL suffix).length = maxL ∧
    ∃ pre, truncate_text (some t) maxL suffix = pre ++ suffix := by
  have hcond : ¬ (t.length = 0 ∨ t.length ≤ maxL) := by omega
  constructor
  · simp only [truncate_text, if_neg hcond, pySlicePrefix]
    have hk : (0 : ℤ) ≤ (maxL : ℤ) - (suffix.length : ℤ) := by
      omega
    rw [if_pos hk]
    have hkn : ((maxL : ℤ) - (suffix.length : ℤ)).toNat = maxL - suffix.length := by
      omega
    rw [hkn]
    have hdata : t.data.length = t.length := rfl
    simp only [String.length_append]
    have : (String.mk (t.data.take (maxL - suffix.length))).length =
        maxL - suffix.length := by
      show (t.data.take (maxL - suffix.length)).length = maxL - suffix.length
      rw [List.length_take]
      omega
    rw [this]
    omega
  · refine ⟨pySlicePrefix t ((maxL : ℤ) - (suffix.length : ℤ)), ?_⟩
    simp only [truncate_text, if_neg hcond]

theorem generate_paragraph_comment_ok (title sec para : String) (idx : ℕ)
    (resp? : Option String) (c : ParagraphComment)
    (h : generate_paragraph_comment title sec para idx resp? = .ok (some c)) :
    c.paragraph_index = (idx : ℤ) ∧
    c.paragraph_text = truncate_text (some para) 100 "..." ∧
    c.section_title = sec := by
  cases resp? with
  | none => cases h
  | some resp =>
    by_cases hemp : resp = ""
    · simp only [generate_paragraph_comment, if_pos hemp] at h
      cases h
    · cases hp : safe_json_parse resp with
      | none =>
        simp only [generate_paragraph_comment, if_neg hemp, hp] at h
        cases h
      | some parsed =>
        cases parsed with
        | obj fs =>
          simp only [generate_paragraph_comment, if_neg hemp, hp] at h
          by_cases ht : pyTruthy (JVal.obj fs)
          · rw [if_neg (by simp [ht])] at h
            cases hk : pydanticStrListVal ((objGet fs "key_points").getD (.arr [])) with
            | error e =>
              rw [hk] at h; simp only [Bind.bind, Except.bind] at h; cases h
            | ok kps =>
              rw [hk] at h
              simp only [Bind.bind, Except.bind] at h
              cases hn : pydanticStrVal ((objGet fs "reading_notes").getD (.str "")) with
              | error e => rw [hn] at h; simp only [Except.bind] at h; cases h
              | ok notes =>
                rw [hn] at h
                simp only [Except.bind] at h
                cases hi : pydanticStrVal ((objGet fs "importance").getD (.str "medium")) with
                | error e => rw [hi] at h; simp only [Except.bind] at h; cases h
                | ok imp =>
                  rw [hi] at h
                  simp only [Except.bind] at h
                  cases h
                  exact ⟨rfl, rfl, rfl⟩
          · rw [if_pos (by simp [ht])] at h
            cases h
        | null =>
          simp only [generate_paragraph_comment, if_neg hemp, hp] at h
          rw [if_pos (by simp [pyTruthy])] at h
          cases h
        | bool b =>
          simp only [generate_paragraph_comment, if_neg hemp, hp] at h
          by_cases ht : pyTruthy (JVal.bool b)
          · rw [if_neg (by simp [ht])] at h; cases h
          · rw [if_pos (by simp [ht])] at h; cases h
        | num q =>
          simp only [generate_paragraph_comment, if_neg hemp, hp] at h
          by_cases ht : pyTruthy (JVal.num q)
          · rw [if_neg (by simp [ht])] at h; cases h
          · rw [if_pos (by simp [ht])] at h; cases h
        | str s =>
          simp only [generate_paragraph_comment, if_neg hemp, hp] at h
          by_cases ht : pyTruthy (JVal.str s)
          · rw [if_neg (by simp [ht])] at h; cases h
          · rw [if_pos (by simp [ht])] at h; cases h
        | arr xs =>
          simp only [generate_paragraph_comment, if_neg hemp, hp] at h
          by_cases ht : pyTruthy (JVal.arr xs)
          · rw [if_neg (by simp [ht])] at h; cases h
          · rw [if_pos (by simp [ht])] at h; cases h

/-- C10: `truncate_text` returns "" for a `None` input, returns the text
unchanged when it fits within `max_length`, and otherwise returns a
string of length exactly `max_length` that ends in the suffix (for
`max_length ≥ len(suffix)`); consequently the `paragraph_text` stored in
every `ParagraphComment` built by `generate_paragraph_comment` has
length at most 100. -/
theorem truncate_text_spec :
    (∀ maxL suffix, truncate_text none maxL suffix = "") ∧
    (∀ (t : String) maxL suffix, t.length ≤ maxL →
      truncate_text (some t) maxL suffix = t) ∧
    (∀ (t : String) maxL (suffix : String), suffix.length ≤ maxL →
      maxL < t.length →
      (truncate_text (some t) maxL suffix).length = maxL ∧
      ∃ pre, truncate_text (some t) maxL suffix = pre ++ suffix) ∧
    (∀ title sec para idx resp c,
      generate_paragraph_comment title sec para idx resp = .ok (some c) →
      c.paragraph_text.length ≤ 100) := by
  refine ⟨fun _ _ => rfl, truncate_text_short, truncate_text_long, ?_⟩
  intro title sec para idx resp c h
  obtain ⟨_, htext, _⟩ := generate_paragraph_comment_ok title sec para idx resp c h
  rw [htext]
  by_cases hlen : para.length ≤ 100
  · rw [truncate_text_short para 100 "..." hlen]
    exact hlen
  · have := (truncate_text_long para 100 "..." (by decide) (by omega)).1
    omega

/-- C10 witness: a 150-character paragraph is truncated to exactly 100
characters ending in "...". -/
theorem truncate_text_spec_witness :
    truncate_text none 100 "..." = "" ∧
    truncate_text (some "short") 100 "..." = "short" ∧
    (truncate_text (some (String.mk (List.replicate 150 'a'))) 100 "...").length = 100 ∧
    (∃ pre, truncate_text (some (String.mk (List.replicate 150 'a'))) 100 "..." =
      pre ++ "...") :=
  ⟨truncate_text_spec.1 100 "...",
    truncate_text_spec.2.1 "short" 100 "..." (by decide),
    (truncate_text_spec.2.2.1 (String.mk (List.replicate 150 'a')) 100 "..."
      (by decide) (by show 100 < (List.replicate 150 'a').length; simp)).1,
    (truncate_text_spec.2.2.1 (String.mk (List.replicate 150 'a')) 100 "..."
      (by decide) (by show 100 < (List.replicate 150 'a').length; simp)).2⟩

theorem cacheLookup_ok_some {α : Type} (decode : JVal → Except PyErr α)
    (st : SysState) (kind pid : String) (force : Bool) (r : α)
    (h : cacheLookup decode st kind pid force = .ok (some r)) :
    ∃ j, st.cache kind (safeId pid) = .val j ∧ decode j = .ok r := by
  unfold cacheLookup at h
  cases he : st.cache kind (safeId pid) with
  | absent =>
    rw [he] at h
    simp [CacheEntry.existsb] at h
  | corrupt =>
    rw [he] at h
    by_cases hf : force
    · simp [CacheEntry.existsb, hf] at h
    · simp [CacheEntry.existsb, hf, load_json] at h
  | val j =>
    rw [he] at h
    by_cases hf : force
    · simp [CacheEntry.existsb, hf] at h
    · by_cases ht : pyTruthy j
      · cases hd : decode j with
        | error e =>
          simp [CacheEntry.existsb, hf, load_json, ht, hd, Except.map] at h
        | ok rr =>
          simp [CacheEntry.existsb, hf, load_json, ht, hd, Except.map] at h
          exact ⟨j, rfl, by rw [hd, h]⟩
      · simp [CacheEntry.existsb, hf, load_json, ht] at h

theorem pySlice_strList_len (j : JVal) (n : ℕ) (v : JVal) (l : List String)
    (h1 : pySlice j n = .ok v) (h2 : pydanticStrListVal v = .ok l) :
    l.length ≤ n := by
  cases j with
  | arr xs =>
    simp only [pySlice, Except.ok.injEq] at h1
    rw [← h1] at h2
    simp only [pydanticStrListVal] at h2
    have := exceptMap_ok_length h2
    rw [this]
    exact List.length_take_le n xs
  | str s =>
    simp only [pySlice, Except.ok.injEq] at h1
    rw [← h1] at h2
    cases h2
  | null => cases h1
  | bool b => cases h1
  | num q => cases h1
  | obj fs => cases h1

theorem keywordsProcessResponse_ok (pid resp now : String) (r : KeywordsResult)
    (h : keywordsProcessResponse pid resp now = .ok (some r)) :
    r.keywords.length ≤ 10 ∧ r.keywords_zh.length ≤ 10 := by
  cases hp : safe_json_parse resp with
  | none => simp only [keywordsProcessResponse, hp] at h; cases h
  | some parsed =>
    cases parsed with
    | obj fs =>
      simp only [keywordsProcessResponse, hp] at h
      by_cases ht : pyTruthy (JVal.obj fs)
      · rw [if_neg (by simp [ht])] at h
        cases h1 : pySlice ((objGet fs "keywords").getD (.arr [])) 10 with
        | error e => rw [h1] at h; simp only [Bind.bind, Except.bind] at h; cases h
        | ok kwJ =>
          rw [h1] at h
          simp only [Bind.bind, Except.bind] at h
          cases h2 : pySlice ((objGet fs "keywords_zh").getD (.arr [])) 10 with
          | error e => rw [h2] at h; simp only [Except.bind] at h; cases h
          | ok kwzhJ =>
            rw [h2] at h
            simp only [Except.bind] at h
            cases h3 : pydanticStrListVal kwJ with
            | error e => rw [h3] at h; simp only [Except.bind] at h; cases h
            | ok kw =>
              rw [h3] at h
              simp only [Except.bind] at h
              cases h4 : pydanticStrListVal kwzhJ with
              | error e => rw [h4] at h; simp only [Except.bind] at h; cases h
              | ok kwzh =>
                rw [h4] at h
                simp only [Except.bind] at h
                cases h
                exact ⟨pySlice_strList_len _ 10 _ _ h1 h3,
                  pySlice_strList_len _ 10 _ _ h2 h4⟩
      · rw [if_pos (by simp [ht])] at h
        cases h
    | null =>
      simp only [keywordsProcessResponse, hp] at h
      rw [if_pos (by simp [pyTruthy])] at h
      cases h
    | bool b =>
      simp only [keywordsProcessResponse, hp] at h
      by_cases ht : pyTruthy (JVal.bool b)
      · rw [if_neg (by simp [ht])] at h; cases h
      · rw [if_pos (by simp [ht])] at h; cases h
    | num q =>
      simp only [keywordsProcessResponse, hp] at h
      by_cases ht : pyTruthy (JVal.num q)
      · rw [if_neg (by simp [ht])] at h; cases h
      · rw [if_pos (by simp [ht])] at h; cases h
    | str s =>
      simp only [keywordsProcessResponse, hp] at h
      by_cases ht : pyTruthy (JVal.str s)
      · rw [if_neg (by simp [ht])] at h; cases h
      · rw [if_pos (by simp [ht])] at h; cases h
    | arr xs =>
      simp only [keywordsProcessResponse, hp] at h
      by_cases ht : pyTruthy (JVal.arr xs)
      · rw [if_neg (by simp [ht])] at h; cases h
      · rw [if_pos (by simp [ht])] at h; cases h

theorem labelsProcessResponse_ok (pid resp now : String) (r : LabelsResult)
    (h : labelsProcessResponse pid resp now = .ok (some r)) :
    r.labels.length ≤ 5 ∧ r.labels_zh.length ≤ 5 := by
  cases hp : safe_json_parse resp with
  | none => simp only [labelsProcessResponse, hp] at h; cases h
  | some parsed =>
    cases parsed with
    | obj fs =>
      simp only [labelsProcessResponse, hp] at h
      by_cases ht : pyTruthy (JVal.obj fs)
      · rw [if_neg (by simp [ht])] at h
        cases h1 : pySlice ((objGet fs "labels").getD (.arr [])) 5 with
        | error e => rw [h1] at h; simp only [Bind.bind, Except.bind] at h; cases h
        | ok lbJ =>
          rw [h1] at h
          simp only [Bind.bind, Except.bind] at h
          cases h2 : pySlice ((objGet fs "labels_zh").getD (.arr [])) 5 with
          | error e => rw [h2] at h; simp only [Except.bind] at h; cases h
          | ok lbzhJ =>
            rw [h2] at h
            simp only [Except.bind] at h
            cases h3 : pydanticStrListVal lbJ with
            | error e => rw [h3] at h; simp only [Except.bind] at h; cases h
            | ok lb =>
              rw [h3] at h
              simp only [Except.bind] at h
              cases h4 : pydanticStrListVal lbzhJ with
              | error e => rw [h4] at h; simp only [Except.bind] at h; cases h
              | ok lbzh =>
                rw [h4] at h
                simp only [Except.bind] at h
                cases h
                exact ⟨pySlice_strList_len _ 5 _ _ h1 h3,
                  pySlice_strList_len _ 5 _ _ h2 h4⟩
      · rw [if_pos (by simp [ht])] at h
        cases h
    | null =>
      simp only [labelsProcessResponse, hp] at h
      rw [if_pos (by simp [pyTruthy])] at h
      cases h
    | bool b =>
      simp only [labelsProcessResponse, hp] at h
      by_cases ht : pyTruthy (JVal.bool b)
      · rw [if_neg (by simp [ht])] at h; cases h
      · rw [if_pos (by simp [ht])] at h; cases h
    | num q =>
      simp only [labelsProcessResponse, hp] at h
      by_cases ht : pyTruthy (JVal.num q)
      · rw [if_neg (by simp [ht])] at h; cases h
      · rw [if_pos (by simp [ht])] at h; cases h
    | str s =>
      simp only [labelsProcessResponse, hp] at h
      by_cases ht : pyTruthy (JVal.str s)
      · rw [if_neg (by simp [ht])] at h; cases h
      · rw [if_pos (by simp [ht])] at h; cases h
    | arr xs =>
      simp only [labelsProcessResponse, hp] at h
      by_cases ht : pyTruthy (JVal.arr xs)
      · rw [if_neg (by simp [ht])] at h; cases h
      · rw [if_pos (by simp [ht])] at h; cases h

/-- C4: in a run whose keyword and label cache files all decode to
capped results (true of a fresh cache, and preserved by every write),
every `KeywordsResult` returned by `extract_keywords` has at most 10
entries in each list, and every `LabelsResult` returned by
`extract_labels` at most 5 in each — whether freshly generated (the
model's lists are truncated by the `[:10]`/`[:5]` slices) or returned
from the cache; and both operations preserve the cache invariant. -/
theorem keywords_labels_caps (oracle : ℕ → Option String) (st : SysState)
    (pid title abstract now : String) (kw : List String) (force : Bool)
    (hkOK : keywordsCacheOK st) (hlOK : labelsCacheOK st) :
    (∀ r st2, extract_keywords oracle st pid title abstract force now =
        .ok (some r, st2) →
      r.keywords.length ≤ 10 ∧ r.keywords_zh.length ≤ 10 ∧
      keywordsCacheOK st2 ∧ labelsCacheOK st2) ∧
    (∀ r st2, extract_labels oracle st pid title abstract kw force now =
        .ok (some r, st2) →
      r.labels.length ≤ 5 ∧ r.labels_zh.length ≤ 5 ∧
      keywordsCacheOK st2 ∧ labelsCacheOK st2) := by
  constructor
  · intro r st2 hcall
    cases hcl : cacheLookup decodeKeywords st "keywords" pid force with
    | error e => simp only [extract_keywords, hcl] at hcall; cases hcall
    | ok o =>
      cases o with
      | some rc =>
        obtain ⟨j, hj, hd⟩ :=
          cacheLookup_ok_some decodeKeywords st "keywords" pid force rc hcl
        have hcaps := hkOK (safeId pid) j rc hj hd
        simp only [extract_keywords, hcl, Except.ok.injEq, Prod.mk.injEq,
          Option.some.injEq] at hcall
        obtain ⟨hr, hst⟩ := hcall
        subst hr
        subst hst
        exact ⟨hcaps.1, hcaps.2, hkOK, hlOK⟩
      | none =>
        simp only [extract_keywords, hcl] at hcall
        cases ho : oracle st.genCalls with
        | none => simp only [ho] at hcall; simp at hcall
        | some resp =>
          simp only [ho] at hcall
          by_cases hemp : resp = ""
          · rw [if_pos hemp] at hcall; simp at hcall
          · rw [if_neg hemp] at hcall
            cases hpr : keywordsProcessResponse pid resp now with
            | error e => simp only [hpr] at hcall; cases hcall
            | ok o2 =>
              cases o2 with
              | none => simp only [hpr] at hcall; simp at hcall
              | some r2 =>
                have hcaps := keywordsProcessResponse_ok pid resp now r2 hpr
                simp only [hpr, Except.ok.injEq, Prod.mk.injEq,
                  Option.some.injEq] at hcall
                obtain ⟨hr, hst⟩ := hcall
                subst hr
                subst hst
                refine ⟨hcaps.1, hcaps.2, ?_, ?_⟩
                · intro p j rr hj hd
                  simp only [bumpSuccess, cacheSet] at hj
                  by_cases hp2 : p = safeId pid
                  · rw [if_pos ⟨trivial, hp2⟩] at hj
                    cases hj
                    rw [decodeKeywords_encode r2] at hd
                    cases hd
                    exact hcaps
                  · rw [if_neg (by simp [hp2])] at hj
                    exact hkOK p j rr hj hd
                · intro p j rr hj hd
                  simp only [bumpSuccess, cacheSet] at hj
                  rw [if_neg (by simp)] at hj
                  exact hlOK p j rr hj hd
  · intro r st2 hcall
    cases hcl : cacheLookup decodeLabels st "labels" pid force with
    | error e => simp only [extract_labels, hcl] at hcall; cases hcall
    | ok o =>
      cases o with
      | some rc =>
        obtain ⟨j, hj, hd⟩ :=
          cacheLookup_ok_some decodeLabels st "labels" pid force rc hcl
        have hcaps := hlOK (safeId pid) j rc hj hd
        simp only [extract_labels, hcl, Except.ok.injEq, Prod.mk.injEq,
          Option.some.injEq] at hcall
        obtain ⟨hr, hst⟩ := hcall
        subst hr
        subst hst
        exact ⟨hcaps.1, hcaps.2, hkOK, hlOK⟩
      | none =>
        simp only [extract_labels, hcl] at hcall
        cases ho : oracle st.genCalls with
        | none => simp only [ho] at hcall; simp at hcall
        | some resp =>
          simp only [ho] at hcall
          by_cases hemp : resp = ""
          · rw [if_pos hemp] at hcall; simp at hcall
          · rw [if_neg hemp] at hcall
            cases hpr : labelsProcessResponse pid resp now with
            | error e => simp only [hpr] at hcall; cases hcall
            | ok o2 =>
              cases o2 with
              | none => simp only [hpr] at hcall; simp at hcall
              | some r2 =>
                have hcaps := labelsProcessResponse_ok pid resp now r2 hpr
                simp only [hpr, Except.ok.injEq, Prod.mk.injEq,
                  Option.some.injEq] at hcall
                obtain ⟨hr, hst⟩ := hcall
                subst hr
                subst hst
                refine ⟨hcaps.1, hcaps.2, ?_, ?_⟩
                · intro p j rr hj hd
                  simp only [bumpSuccess, cacheSet] at hj
                  rw [if_neg (by simp)] at hj
                  exact hkOK p j rr hj hd
                · intro p j rr hj hd
                  simp only [bumpSuccess, cacheSet] at hj
                  by_cases hp2 : p = safeId pid
                  · rw [if_pos ⟨trivial, hp2⟩] at hj
                    cases hj
                    rw [decodeLabels_encode r2] at hd
                    cases hd
                    exact hcaps
                  · rw [if_neg (by simp [hp2])] at hj
                    exact hlOK p j rr hj hd

set_option maxRecDepth 8192 in
/-- C4 witness: from an empty cache, the oracle returning twelve
keywords and seven labels yields results truncated to 10 and 5. -/
theorem keywords_labels_caps_witness :
    ∃ rk stk rl stl,
      extract_keywords kwOracle initState "2410.00001" "T" "A" false "ts" =
        .ok (some rk, stk) ∧
      rk.keywords.length ≤ 10 ∧ rk.keywords_zh.length ≤ 10 ∧
      extract_labels kwOracle initState "2410.00001" "T" "A" [] false "ts" =
        .ok (some rl, stl) ∧
      rl.labels.length ≤ 5 ∧ rl.labels_zh.length ≤ 5 := by
  have hk : keywordsCacheOK initState := by
    intro p j r hj hd
    simp [initState] at hj
  have hl : labelsCacheOK initState := by
    intro p j r hj hd
    simp [initState] at hj
  obtain ⟨rk, stk, hck⟩ : ∃ rk stk,
      extract_keywords kwOracle initState "2410.00001" "T" "A" false "ts" =
        .ok (some rk, stk) := ⟨_, _, rfl⟩
  obtain ⟨rl, stl, hcl⟩ : ∃ rl stl,
      extract_labels kwOracle initState "2410.00001" "T" "A" [] false "ts" =
        .ok (some rl, stl) := ⟨_, _, rfl⟩
  have h := keywords_labels_caps kwOracle initState "2410.00001" "T" "A" "ts" []
    false hk hl
  obtain ⟨hk1, hk2, _, _⟩ := h.1 rk stk hck
  obtain ⟨hl1, hl2, _, _⟩ := h.2 rl stl hcl
  exact ⟨rk, stk, rl, stl, hck, hk1, hk2, hcl, hl1, hl2⟩

theorem filter_length_set (p : TaskPhase → Bool) :
    ∀ (l : List TaskPhase) (i : ℕ) (a b : TaskPhase), l.get? i = some a →
      ((l.set i b).filter p).length + (if p a then 1 else 0) =
        (l.filter p).length + (if p b then 1 else 0) := by
  intro l
  induction l with
  | nil => intro i a b h; cases h
  | cons x xs ih =>
    intro i a b h
    cases i with
    | zero =>
      have hxa : x = a := Option.some.inj h
      subst hxa
      simp only [List.set_cons_zero, List.filter_cons]
      by_cases hpb : p b = true <;> by_cases hpx : p x = true <;>
        simp [hpb, hpx] <;> omega
    | succ n =>
      have hx : xs.get? n = some a := h
      have hrec := ih n a b hx
      simp only [List.set_cons_succ, List.filter_cons]
      by_cases hpx : p x = true <;> simp [hpx] <;> omega

theorem inflight_init (c n : ℕ) : inflightCount (fanoutInit c n) = 0 := by
  simp only [inflightCount, fanoutInit]
  induction n with
  | zero => rfl
  | succ k ih =>
    simp only [List.replicate_succ, List.filter_cons]
    simp only [show decide (TaskPhase.waiting = TaskPhase.inflight) = false from rfl,
      Bool.false_eq_true, if_false]
    exact ih

theorem fanout_inv_step (c : ℕ) (s t : FanoutState) (hst : FanoutStep s t)
    (hinv : s.counter + inflightCount s = c) :
    t.counter + inflightCount t = c := by
  cases hst with
  | acquire i hi hc =>
    have hcount := filter_length_set (fun x => x = .inflight) s.tasks i
      .waiting .inflight hi
    simp only [inflightCount] at hinv ⊢
    simp at hcount
    omega
  | finish i hi =>
    have hcount := filter_length_set (fun x => x = .inflight) s.tasks i
      .inflight .done hi
    simp only [inflightCount] at hinv ⊢
    simp at hcount
    omega

theorem fanout_inv (c n : ℕ) (s : FanoutState)
    (h : FanoutReachable (fanoutInit c n) s) :
    s.counter + inflightCount s = c := by
  induction h with
  | refl => rw [inflight_init c n]; rfl
  | tail hreach hstep ih => exact fanout_inv_step c _ _ hstep ih

/-- C9: in the interleaving semantics of the comment fan-out, where each
per-paragraph task must hold the counting semaphore (initialized to
`concurrency`) around its generate call, every reachable configuration
has at most `concurrency` generate calls in flight. -/
theorem fanout_semaphore_bound (c n : ℕ) (s : FanoutState)
    (h : FanoutReachable (fanoutInit c n) s) : inflightCount s ≤ c := by
  have := fanout_inv c n s h
  omega

/-- C9 witness: with concurrency 3 and two tasks, the configuration
after one acquire step is reachable and within the bound. -/
theorem fanout_semaphore_bound_witness :
    FanoutReachable (fanoutInit 3 2) ⟨2, [.inflight, .waiting]⟩ ∧
    inflightCount ⟨2, [.inflight, .waiting]⟩ ≤ 3 := by
  have hstep : FanoutStep (fanoutInit 3 2) ⟨2, [.inflight, .waiting]⟩ :=
    FanoutStep.acquire (fanoutInit 3 2) 0 (by rfl) (by decide)
  exact ⟨Relation.ReflTransGen.single hstep,
    fanout_semaphore_bound 3 2 _ (Relation.ReflTransGen.single hstep)⟩

theorem length_insertDesc (x : ParaRef) (l : List ParaRef) :
    (insertDesc x l).length = l.length + 1 := by
  induction l with
  | nil => rfl
  | cons y ys ih =>
    simp only [insertDesc]
    split_ifs
    · simp [ih]
    · simp

theorem length_sortByLenDesc (l : List ParaRef) :
    (sortByLenDesc l).length = l.length := by
  induction l with
  | nil => rfl
  | cons x xs ih => simp [sortByLenDesc, length_insertDesc, ih]

theorem mem_insertDesc (x z : ParaRef) (l : List ParaRef) :
    z ∈ insertDesc x l ↔ z = x ∨ z ∈ l := by
  induction l with
  | nil => simp [insertDesc]
  | cons y ys ih =>
    simp only [insertDesc]
    split_ifs
    · simp only [List.mem_cons, ih]
      tauto
    · simp only [List.mem_cons]

theorem pairwise_insertDesc (x : ParaRef) (l : List ParaRef)
    (h : l.Pairwise (fun a b => b.text.length ≤ a.text.length)) :
    (insertDesc x l).Pairwise (fun a b => b.text.length ≤ a.text.length) := by
  induction l with
  | nil => simp [insertDesc]
  | cons y ys ih =>
    rw [List.pairwise_cons] at h
    obtain ⟨hy, hys⟩ := h
    simp only [insertDesc]
    split_ifs with hlt
    · rw [List.pairwise_cons]
      refine ⟨?_, ih hys⟩
      intro z hz
      rw [mem_insertDesc] at hz
      cases hz with
      | inl hz => rw [hz]; omega
      | inr hz => exact hy z hz
    · rw [List.pairwise_cons]
      refine ⟨?_, by rw [List.pairwise_cons]; exact ⟨hy, hys⟩⟩
      intro z hz
      simp only [List.mem_cons] at hz
      cases hz with
      | inl hz => rw [hz]; omega
      | inr hz =>
        have := hy z hz
        omega

theorem sortByLenDesc_pairwise (l : List ParaRef) :
    (sortByLenDesc l).Pairwise (fun a b => b.text.length ≤ a.text.length) := by
  induction l with
  | nil => simp [sortByLenDesc]
  | cons x xs ih => exact pairwise_insertDesc x _ ih

theorem insertDesc_perm (x : ParaRef) (l : List ParaRef) :
    List.Perm (insertDesc x l) (x :: l) := by
  induction l with
  | nil => rfl
  | cons y ys ih =>
    simp only [insertDesc]
    split_ifs
    · exact (ih.cons y).trans (List.Perm.swap x y ys)
    · rfl

theorem sortByLenDesc_perm (l : List ParaRef) :
    List.Perm (sortByLenDesc l) l := by
  induction l with
  | nil => rfl
  | cons x xs ih => exact (insertDesc_perm x _).trans (ih.cons x)

theorem generateCommentsCore_some (pid : String) (content : Ar5ivContentM)
    (mp : ℕ) (oracle : ℕ → Option String) (now : String) (res : CommentsResult)
    (h : generateCommentsCore pid content mp oracle now = some res) :
    res.comments.length ≤ mp ∧
    res.comments.length ≤ (get_all_paragraphs content).length ∧
    (∀ c ∈ res.comments, ∃ ip ∈ (selectedParagraphs content mp).enum,
      c.paragraph_index = (ip.1 : ℤ) ∧
      c.paragraph_text = truncate_text (some ip.2.text) 100 "..." ∧
      c.section_title = ip.2.section_title) := by
  simp only [generateCommentsCore] at h
  by_cases hemp : (((selectedParagraphs content mp).enum.map (fun ip =>
      generate_paragraph_comment content.title ip.2.section_title ip.2.text ip.1
        (oracle ip.1))).filterMap (fun r =>
          match r with
          | .ok (some c) => some c
          | .ok none => none
          | .error _ => none)).isEmpty
  · rw [if_pos hemp] at h
    cases h
  · rw [if_neg hemp] at h
    cases h
    have hlen : (((selectedParagraphs content mp).enum.map (fun ip =>
        generate_paragraph_comment content.title ip.2.section_title ip.2.text ip.1
          (oracle ip.1))).filterMap (fun r =>
            match r with
            | .ok (some c) => some c
            | .ok none => none
            | .error _ => none)).length ≤ (selectedParagraphs content mp).length := by
      calc _ ≤ ((selectedParagraphs content mp).enum.map (fun ip =>
            generate_paragraph_comment content.title ip.2.section_title ip.2.text
              ip.1 (oracle ip.1))).length := List.length_filterMap_le _ _
        _ = (selectedParagraphs content mp).enum.length := List.length_map _ _
        _ = (selectedParagraphs content mp).length := List.enum_length
    have hsel1 : (selectedParagraphs content mp).length ≤ mp := by
      simp only [selectedParagraphs, List.length_take]
      omega
    have hsel2 : (selectedParagraphs content mp).length ≤
        (get_all_paragraphs content).length := by
      simp only [selectedParagraphs, List.length_take,
        length_sortByLenDesc]
      omega
    refine ⟨by simpa using le_trans hlen hsel1, by simpa using le_trans hlen hsel2, ?_⟩
    intro c hc
    simp only [List.mem_filterMap] at hc
    obtain ⟨a, ha, hfa⟩ := hc
    simp only [List.mem_map] at ha
    obtain ⟨ip, hip, hga⟩ := ha
    refine ⟨ip, hip, ?_⟩
    cases a with
    | error e => cases hfa
    | ok o =>
      cases o with
      | none => cases hfa
      | some c2 =>
        have hcc : c2 = c := by
          simpa using hfa
        rw [hcc] at hga
        exact generate_paragraph_comment_ok content.title ip.2.section_title
          ip.2.text ip.1 (oracle ip.1) c hga

/-- C3: the generation path of `generate_comments` flattens the section
tree, sorts the paragraphs by descending text length (stably), and
truncates to `max_paragraphs` before generating, indexing the selected
batch 0..N-1 in sorted order; hence every produced result has at most
`max_paragraphs` comments and at most as many as the document has
paragraphs, each comment carries the index and (truncated) text of its
selected paragraph, the selected batch is length-sorted, the sort is a
permutation of the flattened paragraphs, and the concrete 25-paragraph
document with `max_paragraphs = 20` yields exactly the 20 longest
paragraphs indexed 0..19 in descending-length order. -/
theorem generate_comments_selection_spec :
    (∀ pid content mp oracle now res,
      generateCommentsCore pid content mp oracle now = some res →
      res.comments.length ≤ mp ∧
      res.comments.length ≤ (get_all_paragraphs content).length ∧
      (∀ c ∈ res.comments, ∃ ip ∈ (selectedParagraphs content mp).enum,
        c.paragraph_index = (ip.1 : ℤ) ∧
        c.paragraph_text = truncate_text (some ip.2.text) 100 "..." ∧
        c.section_title = ip.2.section_title)) ∧
    (∀ content mp, (selectedParagraphs content mp).Pairwise
      (fun a b => b.text.length ≤ a.text.length)) ∧
    (∀ content : Ar5ivContentM,
      List.Perm (sortByLenDesc (get_all_paragraphs content))
        (get_all_paragraphs content)) ∧
    (Option.map (fun res => res.comments.length)
      (generateCommentsCore "2410.00001" content25 20 commentOracle "ts") =
      some 20) ∧
    (Option.map (fun res => res.comments.map
        (fun c => (c.paragraph_index, c.paragraph_text)))
      (generateCommentsCore "2410.00001" content25 20 commentOracle "ts") =
      some ((List.range 20).map
        (fun (i : ℕ) => ((i : ℤ), String.mk (List.replicate (25 - i) 'a'))))) := by
  refine ⟨generateCommentsCore_some, ?_, fun content =>
    sortByLenDesc_perm (get_all_paragraphs content), by decide, by decide⟩
  intro content mp
  exact List.Pairwise.sublist (List.take_sublist mp _)
    (sortByLenDesc_pairwise (get_all_paragraphs content))

/-- C3 witness: the bounds instantiated on the concrete 25-paragraph
document. -/
theorem generate_comments_selection_spec_witness :
    ∃ res, generateCommentsCore "2410.00001" content25 20 commentOracle "ts" =
        some res ∧
      res.comments.length ≤ 20 ∧
      res.comments.length ≤ (get_all_paragraphs content25).length := by
  obtain ⟨res, hres⟩ : ∃ res,
      generateCommentsCore "2410.00001" content25 20 commentOracle "ts" =
        some res := ⟨_, rfl⟩
  have h := generate_comments_selection_spec.1 "2410.00001" content25 20
    commentOracle "ts" res hres
  exact ⟨res, hres, h.1, h.2.1⟩

mutual

theorem parse_section_no_skip : ∀ (e : SElem) (level : ℕ) (s : SectionM),
    parse_section e level = some s →
    ∀ x ∈ s.selfAndDesc, matchesSkip x.title = false
  | .mk none d pc subs, level, s, h => by cases h
  | .mk (some raw) d pc subs, level, s, h => by
    simp only [parse_section] at h
    by_cases hm : matchesSkip (clean_text raw)
    · rw [if_pos hm] at h
      cases h
    · rw [if_neg hm] at h
      cases h
      intro x hx
      simp only [SectionM.selfAndDesc, List.mem_cons] at hx
      cases hx with
      | inl hx =>
        rw [hx]
        simpa [SectionM.title] using hm
      | inr hx => exact parse_subsections_no_skip subs (level + 1) x hx

theorem parse_subsections_no_skip : ∀ (es : List SElem) (level : ℕ),
    ∀ x ∈ sectionsDesc (parse_subsections es level), matchesSkip x.title = false
  | [], _, x, hx => by cases hx
  | e :: es, level, x, hx => by
    cases hp : parse_section e level with
    | some s =>
      simp only [parse_subsections, hp, sectionsDesc, List.mem_append] at hx
      cases hx with
      | inl hx => exact parse_section_no_skip e level s hp x hx
      | inr hx => exact parse_subsections_no_skip es level x hx
    | none =>
      simp only [parse_subsections, hp] at hx
      exact parse_subsections_no_skip es level x hx

end

mutual

theorem sectionTexts_source : ∀ (s : SectionM) (line : String),
    line ∈ sectionTexts s →
    line = "" ∨ ∃ x ∈ s.selfAndDesc, line = sectionHeader x ∨ line ∈ x.paragraphs
  | .mk t l ps subs, line, h => by
    simp only [sectionTexts, List.mem_cons, List.mem_append,
      List.mem_flatMap] at h
    rcases h with (h | h | ⟨p, hp, hmem⟩) | h
    · right
      refine ⟨.mk t l ps subs, by simp [SectionM.selfAndDesc], Or.inl ?_⟩
      rw [h]
      rfl
    · left
      exact h
    · rcases hmem with hmem | hmem
      · right
        exact ⟨.mk t l ps subs, by simp [SectionM.selfAndDesc],
          Or.inr (by rw [hmem]; simpa [SectionM.paragraphs] using hp)⟩
      · left
        rcases hmem with hmem | hmem
        · exact hmem
        · cases hmem
    · rcases sectionsTexts_source subs line h with hline | ⟨x, hx, hxl⟩
      · left
        exact hline
      · right
        refine ⟨x, ?_, hxl⟩
        simp only [SectionM.selfAndDesc, List.mem_cons]
        right
        simpa [SectionM.subsections] using hx

theorem sectionsTexts_source : ∀ (ss : List SectionM) (line : String),
    line ∈ sectionsTexts ss →
    line = "" ∨ ∃ x ∈ sectionsDesc ss, line = sectionHeader x ∨ line ∈ x.paragraphs
  | [], line, h => by cases h
  | s :: ss, line, h => by
    simp only [sectionsTexts, List.mem_append] at h
    cases h with
    | inl h =>
      rcases sectionTexts_source s line h with hline | ⟨x, hx, hxl⟩
      · left
        exact hline
      · right
        exact ⟨x, by simp only [sectionsDesc, List.mem_append]; exact Or.inl hx, hxl⟩
    | inr h =>
      rcases sectionsTexts_source ss line h with hline | ⟨x, hx, hxl⟩
      · left
        exact hline
      · right
        exact ⟨x, by simp only [sectionsDesc, List.mem_append]; exact Or.inr hx, hxl⟩

end

/-- C5: a section container whose extracted (cleaned) heading matches
the case-insensitive prefix pattern references|bibliography|appendix is
dropped by `_parse_section`, so no section anywhere in the parsed tree
bears such a title, and every non-blank line of the derived full text is
the header or a paragraph of some surviving section; on the concrete
document, the "References" subsection (with its nested child) and the
top-level "Bibliography" section are absent from the tree and from the
full text. -/
theorem skip_references_sections_spec :
    (∀ (e : SElem) (level : ℕ) (raw : String),
      e.titleText = some raw → matchesSkip (clean_text raw) = true →
      parse_section e level = none) ∧
    (∀ tops, ∀ x ∈ sectionsDesc (extract_sections tops),
      matchesSkip x.title = false) ∧
    (∀ tops line, line ∈ sectionsTexts (extract_sections tops) →
      line = "" ∨ ∃ x ∈ sectionsDesc (extract_sections tops),
        line = sectionHeader x ∨ line ∈ x.paragraphs) ∧
    ((sectionsDesc (extract_sections docRefs)).map (fun s => s.title) =
      ["1 Introduction", "1.1 Setup"]) ∧
    (extract_full_text (extract_sections docRefs) =
      "## 1 Introduction\n\nThis paragraph is long enough.\n\n### 1.1 Setup\n\nAnother sufficiently long paragraph.\n") := by
  refine ⟨?_, ?_, ?_, by decide, by decide⟩
  · intro e level raw htitle hm
    cases e with
    | mk t d pc subs =>
      have ht : t = some raw := htitle
      rw [ht]
      simp [parse_section, hm]
  · intro tops x hx
    exact parse_subsections_no_skip tops 2 x hx
  · intro tops line hline
    exact sectionsTexts_source (extract_sections tops) line hline

/-- C5 witness: a container titled "References" is dropped at any level,
and a non-matching title survives. -/
theorem skip_references_sections_spec_witness :
    parse_section (SElem.mk (some "References")
      ["Some reference entry text here."] [] []) 3 = none ∧
    matchesSkip "1 Introduction" = false :=
  ⟨skip_references_sections_spec.1
      (SElem.mk (some "References") ["Some reference entry text here."] [] []) 3
      "References" rfl (by decide),
    by decide⟩

end HFPS
